import Mathlib

/-!
Verification development for the RTS spatial-index and gameplay core.

The C++ sources are shallowly embedded: `float` scalars become `ℚ`,
`entt::entity` becomes `ℕ` with `entt::null` as `none : Option ℕ`, the
EnTT registry becomes a record of per-entity component maps, and the
per-faction uniform grid becomes a function from (faction, cell index)
to an optional bucket-head entity.  Comparisons that the source performs
on `Vec2::distance` (a real square root) are encoded exactly on squared
distances.  `Vec2::normalize`, whose value is irrational, is abstracted
as an explicit function parameter `nrm`; no theorem below depends on its
value.
-/

namespace RTS

/-- 2D vector with rational coordinates, embedding `Vec2` of vec2.hpp. -/
structure Vec2 where
  x : ℚ
  y : ℚ
deriving DecidableEq

/-- Componentwise sum, embedding `Vec2::operator+`. -/
def vadd (a b : Vec2) : Vec2 := ⟨a.x + b.x, a.y + b.y⟩

/-- Componentwise difference, embedding `Vec2::operator-`. -/
def vsub (a b : Vec2) : Vec2 := ⟨a.x - b.x, a.y - b.y⟩

/-- Scalar multiple, embedding `Vec2::operator*(float)`. -/
def scale (a : Vec2) (k : ℚ) : Vec2 := ⟨a.x * k, a.y * k⟩

/-- Dot product, embedding `Vec2::dot`. -/
def dot (a b : Vec2) : ℚ := a.x * b.x + a.y * b.y

/-- Squared distance, embedding `Vec2::distance_squared`. -/
def distSq (a b : Vec2) : ℚ := (b.x - a.x) * (b.x - a.x) + (b.y - a.y) * (b.y - a.y)

/-- Modelled from the spec: `Vec2::isZero` (declared in the components
header that is absent from the sources); the spec says "zero-velocity
means not moving", so the test is exact equality with the zero vector. -/
def Vec2.isZero (v : Vec2) : Prop := v.x = 0 ∧ v.y = 0

instance (v : Vec2) : Decidable v.isZero := by unfold Vec2.isZero; infer_instance

/-- Exact encoding of `Vec2::distance(a,b) ≤ r`: the real square root of
the (nonnegative) squared distance `dsq` is at most `r` iff `0 ≤ r` and
`dsq ≤ r²`. -/
def sqrtLE (dsq r : ℚ) : Prop := 0 ≤ r ∧ dsq ≤ r ^ 2

/-- Exact encoding of `Vec2::distance(a,b) < r`. -/
def sqrtLT (dsq r : ℚ) : Prop := 0 ≤ r ∧ dsq < r ^ 2

/-- Exact encoding of `Vec2::distance(a,b) > r`. -/
def sqrtGT (dsq r : ℚ) : Prop := r < 0 ∨ r ^ 2 < dsq

instance (d r : ℚ) : Decidable (sqrtLE d r) := by unfold sqrtLE; infer_instance

instance (d r : ℚ) : Decidable (sqrtLT d r) := by unfold sqrtLT; infer_instance

instance (d r : ℚ) : Decidable (sqrtGT d r) := by unfold sqrtGT; infer_instance

/-- C-style truncation toward zero of a rational, embedding
`static_cast<int>` applied to a `float` quotient (`q.num / q.den` is
the computable floor of `q`). -/
def truncQ (q : ℚ) : ℤ := if 0 ≤ q then q.num / q.den else -((-q).num / (-q).den)

/-- `std::max(lo, std::min(v, hi))`. -/
def clampZ (lo hi v : ℤ) : ℤ := max lo (min v hi)

/-- Number of faction partitions (`MAX_FACTIONS`); the spec fixes it at 8. -/
def MAX_FACTIONS : ℤ := 8

/-- Grid construction parameters: column count, row count and cell size
(`_cols`, `_rows`, `_cell_size` of `SpatialGrid`). -/
structure Cfg where
  cols : ℤ
  rows : ℤ
  cellSize : ℤ
deriving DecidableEq

/-- A usable grid geometry: at least one column and row and a positive
cell size (matching any grid the constructor can build from positive
world dimensions). -/
def Cfg.Valid (cfg : Cfg) : Prop := 1 ≤ cfg.cols ∧ 1 ≤ cfg.rows ∧ 1 ≤ cfg.cellSize

/-- Clamped cell column of an x-coordinate, embedding the x half of
`SpatialGrid::getCellCoords` / `getCellIndex`. -/
def cellX (cfg : Cfg) (q : ℚ) : ℤ := clampZ 0 (cfg.cols - 1) (truncQ (q / (cfg.cellSize : ℚ)))

/-- Clamped cell row of a y-coordinate. -/
def cellY (cfg : Cfg) (q : ℚ) : ℤ := clampZ 0 (cfg.rows - 1) (truncQ (q / (cfg.cellSize : ℚ)))

/-- Flat cell index of a position, embedding `SpatialGrid::getCellIndex`. -/
def getCellIndex (cfg : Cfg) (p : Vec2) : ℤ := cellX cfg p.x + cellY cfg p.y * cfg.cols

/-- Intrusive list bookkeeping, embedding the `SpatialNode` component of
the per-faction grid variant (link fields plus owning cell and faction;
defaults `entt::null`, `entt::null`, `-1`, `-1`). -/
structure SpatialNode where
  next : Option ℕ := none
  prev : Option ℕ := none
  cell_index : ℤ := -1
  faction : ℤ := -1
deriving DecidableEq

instance : Inhabited SpatialNode := ⟨{}⟩

/-- `Movement` component of the richer gameplay variant: velocity,
target position and speed. -/
structure Movement where
  velocity : Vec2
  target : Vec2
  speed : ℚ
deriving DecidableEq

/-- `Health` component: current and maximum hit points and flat shield. -/
structure Health where
  current : ℚ
  maxHp : ℚ
  shield : ℚ
deriving DecidableEq

/-- Modelled from the spec: `Health::Damage` (declared in the absent
components header); the spec and the inline older variant both apply
`max(0, damage − shield)` to `current`, with no clamping at zero. -/
def Health.damage (h : Health) (d : ℚ) : Health :=
  { h with current := h.current - max 0 (d - h.shield) }

/-- Modelled from the spec: `Health::Heal`; adds the flat amount and
clamps `current` to `max`, as in the inline older variant. -/
def Health.heal (h : Health) (amt : ℚ) : Health :=
  { h with current := min h.maxHp (h.current + amt) }

/-- Modelled from the spec: `Health::IsFullHealth`; the inline older
variant tests `current < max` for "can still be healed". -/
def Health.isFull (h : Health) : Prop := ¬h.current < h.maxHp

instance (h : Health) : Decidable h.isFull := by unfold Health.isFull; infer_instance

/-- `DirectDamage` component (melee weapons). -/
structure DirectDamage where
  damage : ℚ
  range : ℚ
  cooldown : ℚ
  timer : ℚ
deriving DecidableEq

/-- `ProjectileEmitter` component (ranged weapons). -/
structure ProjectileEmitter where
  damage : ℚ
  range : ℚ
  cooldown : ℚ
  timer : ℚ
  projectile_speed : ℚ
  projectile_type : ℤ
  aoe_radius : ℚ
deriving DecidableEq

/-- `Healer` component. -/
structure Healer where
  heal_amount : ℚ
  range : ℚ
  cooldown : ℚ
  timer : ℚ
deriving DecidableEq

/-- `Projectile` component carried by a projectile entity. -/
structure Projectile where
  damage : ℚ
  faction : ℤ
  is_aoe : Bool
  aoe_radius : ℚ
deriving DecidableEq

/-- `Follow` component of support units, with the fields the follow
resolver reads: followed entity, timers and ranges. -/
structure Follow where
  target : Option ℕ
  targetTimer : ℚ
  targetCooldown : ℚ
  searchRadius : ℚ
  followRange : ℚ
  speed : ℚ
deriving DecidableEq

/-- The simulation state: the EnTT registry (entity list in iteration
order, liveness, one map per component type), the per-faction grid
bucket heads (`FactionGrid::_cells` for each faction), the gameplay
system's targeting clock, and the id counter used by `registry.create`. -/
structure State where
  nextId : ℕ
  entities : List ℕ
  alive : ℕ → Bool
  position : ℕ → Option Vec2
  movement : ℕ → Option Movement
  faction : ℕ → Option ℤ
  health : ℕ → Option Health
  directDamage : ℕ → Option DirectDamage
  emitter : ℕ → Option ProjectileEmitter
  healerC : ℕ → Option Healer
  attackTarget : ℕ → Option (Option ℕ)
  projectileC : ℕ → Option Projectile
  unitC : ℕ → Option (ℤ × ℤ)
  followC : ℕ → Option Follow
  attacking : ℕ → Bool
  node : ℕ → Option SpatialNode
  cells : ℤ → ℤ → Option ℕ
  targetingTimer : ℚ

/-- Pointwise update of a one-argument component map. -/
def updFn {β : Type} (f : ℕ → β) (a : ℕ) (b : β) : ℕ → β :=
  fun x => if x = a then b else f x

/-- Pointwise update of the bucket-head table at one (faction, cell). -/
def updCells (c : ℤ → ℤ → Option ℕ) (f ci : ℤ) (v : Option ℕ) : ℤ → ℤ → Option ℕ :=
  fun g cj => if g = f ∧ cj = ci then v else c g cj

/-- Replace entity `e`'s `SpatialNode` (the effect of writing through
`registry.get` / `get_or_emplace`). -/
def setNode (s : State) (e : ℕ) (n : SpatialNode) : State :=
  { s with node := updFn s.node e (some n) }

/-- `FactionGrid::Insert`: prepend `e` to the bucket of cell `ci` in
faction `f`'s grid, patching the old head's back link.  The caller has
already materialised `e`'s node. -/
def gridInsertRaw (s : State) (f ci : ℤ) (e : ℕ) : State :=
  let h := s.cells f ci
  let n0 := (s.node e).getD default
  let s1 := setNode s e { n0 with next := h, prev := none }
  let s2 :=
    match h with
    | some hd =>
        match s1.node hd with
        | some nh => setNode s1 hd { nh with prev := some e }
        | none => s1
    | none => s1
  { s2 with cells := updCells s2.cells f ci (some e) }

/-- The validated body of `SpatialGrid::Insert`: record cell index and
faction on the entity's node (created on demand by `get_or_emplace`),
then prepend into the faction grid. -/
def insertCore (cfg : Cfg) (s : State) (e : ℕ) (p : Vec2) (ef : ℤ) : State :=
  let ci := getCellIndex cfg p
  let n0 := (s.node e).getD default
  let s1 := setNode s e { n0 with cell_index := ci, faction := ef }
  gridInsertRaw s1 ef ci e

/-- `SpatialGrid::Insert(entity, pos, faction)`: resolve the faction
(`-1` means "read the entity's Faction attribute"; missing attribute or
an id outside `[0, MAX_FACTIONS)` makes the call a no-op), then insert. -/
def SpatialGrid.insert (cfg : Cfg) (s : State) (e : ℕ) (p : Vec2) (f : ℤ) : State :=
  match (if f = -1 then s.faction e else some f) with
  | none => s
  | some ef =>
    if ef < 0 ∨ MAX_FACTIONS ≤ ef then s
    else insertCore cfg s e p ef

/-- The validated body of `SpatialGrid::Remove`: unlink `e`'s node `n`
by patching its neighbours (or the bucket head when it has no
predecessor) and blank the node's cell index and faction. -/
def removeCore (s : State) (e : ℕ) (n : SpatialNode) : State :=
  let s1 :=
    match n.prev with
    | some pv =>
        match s.node pv with
        | some np => setNode s pv { np with next := n.next }
        | none => s
    | none => { s with cells := updCells s.cells n.faction n.cell_index n.next }
  let s2 :=
    match n.next with
    | some nx =>
        match s1.node nx with
        | some nn => setNode s1 nx { nn with prev := n.prev }
        | none => s1
    | none => s1
  setNode s2 e { n with cell_index := -1, faction := -1 }

/-- `SpatialGrid::Remove(entity)`: no-op without a node or when the node
records `faction == -1 || cell_index == -1` or an invalid faction;
otherwise unlink. -/
def SpatialGrid.remove (s : State) (e : ℕ) : State :=
  match s.node e with
  | none => s
  | some n =>
    if n.faction = -1 ∨ n.cell_index = -1 then s
    else if n.faction < 0 ∨ MAX_FACTIONS ≤ n.faction then s
    else removeCore s e n

/-- `SpatialGrid::Update(entity, old_pos, new_pos)`: insert if the
entity has no node yet; remove if it lost its Faction attribute;
otherwise re-index only when the computed cell index or the live faction
changed. -/
def SpatialGrid.update (cfg : Cfg) (s : State) (e : ℕ) (oldP newP : Vec2) : State :=
  match s.node e with
  | none => SpatialGrid.insert cfg s e newP (-1)
  | some n =>
    match s.faction e with
    | none => SpatialGrid.remove s e
    | some newF =>
      if getCellIndex cfg oldP ≠ getCellIndex cfg newP ∨ n.faction ≠ newF then
        SpatialGrid.insert cfg (SpatialGrid.remove s e) e newP newF
      else s

/-- Walk an intrusive bucket list from a head pointer, with explicit
fuel standing in for the C++ `while (curr != entt::null)` loop. -/
def chainWalk (s : State) : ℕ → Option ℕ → List ℕ
  | 0, _ => []
  | _ + 1, none => []
  | fuel + 1, some e => e :: chainWalk s fuel ((s.node e).bind (fun n => n.next))

/-- Concatenation of `fn` over `l` (the nested query loops). -/
def lcat {α β : Type} (l : List α) (fn : α → List β) : List β :=
  match l with
  | [] => []
  | a :: t => fn a ++ lcat t fn

/-- The integer interval `[a, b]` as a list, in increasing order (the
`for (v = a; v <= b; ++v)` loop ranges). -/
def cellRange (a b : ℤ) : List ℤ := (List.range (b + 1 - a).toNat).map (fun (i : ℕ) => a + (i : ℤ))

/-- Flat indices of the cells a rectangular coarse scan visits, row by
row (`FactionGrid::Query`'s loop order). -/
def visitedIdx (cfg : Cfg) (sx sy ex ey : ℤ) : List ℤ :=
  lcat (cellRange sy ey) (fun y => (cellRange sx ex).map (fun x => x + y * cfg.cols))

/-- `FactionGrid::Query` restricted to faction `f`: walk every visited
bucket and concatenate the entities found. -/
def factionQueryCells (cfg : Cfg) (s : State) (fuel : ℕ) (f sx sy ex ey : ℤ) : List ℕ :=
  lcat (visitedIdx cfg sx sy ex ey) (fun ci => chainWalk s fuel (s.cells f ci))

/-- `FactionGrid::IsEmpty` tests a cached counter
(`return _entity_count == 0`) that `FactionGrid::Insert`/`Remove` keep
in step with the lists.  The embedding does not carry the cache; it
uses the counter's structural meaning — every bucket head of the
faction's grid is null — which coincides with the cached test whenever
the counter is consistent (in particular under the well-formedness
invariant assumed by every query theorem below). -/
def factionIsEmpty (cfg : Cfg) (s : State) (f : ℤ) : Prop :=
  ∀ ci ∈ cellRange 0 (cfg.cols * cfg.rows - 1), s.cells f ci = none

instance (cfg : Cfg) (s : State) (f : ℤ) : Decidable (factionIsEmpty cfg s f) := by
  unfold factionIsEmpty; infer_instance

/-- The eight faction ids, in scan order. -/
def allFactions : List ℤ := [0, 1, 2, 3, 4, 5, 6, 7]

/-- `SpatialGrid::forEachRelevantGrid`: the factions a query with filter
`(f, sf)` scans, skipping empty partitions.  `f ∈ [0,8)` with
`sf = true` scans only `f`; with `sf = false` every other faction; any
`f` outside `[0,8)` scans all factions. -/
def relevantFactions (cfg : Cfg) (s : State) (f : ℤ) (sf : Bool) : List ℤ :=
  if 0 ≤ f ∧ f < MAX_FACTIONS then
    if sf then (if factionIsEmpty cfg s f then [] else [f])
    else allFactions.filter (fun i => decide (i ≠ f) && !decide (factionIsEmpty cfg s i))
  else allFactions.filter (fun i => !decide (factionIsEmpty cfg s i))

/-- Candidate entities a radius query traverses: every bucket of every
relevant faction grid inside the coarse cell range of the radius's
bounding box. -/
def radiusCandidates (cfg : Cfg) (s : State) (fuel : ℕ) (pos : Vec2) (r : ℚ) (f : ℤ)
    (sf : Bool) : List ℕ :=
  let sx := cellX cfg (pos.x - r)
  let sy := cellY cfg (pos.y - r)
  let ex := cellX cfg (pos.x + r)
  let ey := cellY cfg (pos.y + r)
  lcat (relevantFactions cfg s f sf) (fun g => factionQueryCells cfg s fuel g sx sy ex ey)

/-- `SpatialGrid::QueryRadius`, with the callback reified as the list of
entities it is invoked on: candidates that have a Position within
squared distance `r²`. -/
def queryRadiusList (cfg : Cfg) (s : State) (fuel : ℕ) (pos : Vec2) (r : ℚ) (f : ℤ)
    (sf : Bool) : List ℕ :=
  (radiusCandidates cfg s fuel pos r f sf).filter (fun e =>
    match s.position e with
    | none => false
    | some p => decide (distSq pos p ≤ r ^ 2))

/-- One step of `SpatialGrid::FindNearest`'s running best:
`dist_sq <= radius_sq && dist_sq < best_dist_sq`. -/
def nearestStep (s : State) (pos : Vec2) (rsq : ℚ) (best : Option ℕ × ℚ) (e : ℕ) :
    Option ℕ × ℚ :=
  match s.position e with
  | none => best
  | some p =>
    let dsq := distSq pos p
    if dsq ≤ rsq ∧ dsq < best.2 then (some e, dsq) else best

/-- `SpatialGrid::FindNearest`: fold the running best (initialised to
`radius²`) over the same traversal as `QueryRadius`. -/
def findNearest (cfg : Cfg) (s : State) (fuel : ℕ) (pos : Vec2) (r : ℚ) (f : ℤ)
    (sf : Bool) : Option ℕ :=
  ((radiusCandidates cfg s fuel pos r f sf).foldl (nearestStep s pos (r ^ 2)) (none, r ^ 2)).1

/-! ## Gameplay system (richer variant) -/

/-- `GameplaySystem::processMovement`: skip zero-velocity entities
(reporting "not moved"); otherwise advance the position by
`velocity × dt` and, when the entity is now strictly within 0.5 world
units of the target or the dot product of the vector to the target with
the velocity is strictly negative, zero the velocity and snap the
target to the new position.  Returns (movement, position, moved). -/
def processMovement (m : Movement) (p : Vec2) (dt : ℚ) : Movement × Vec2 × Bool :=
  if m.velocity.isZero then (m, p, false)
  else
    let p' := vadd p (scale m.velocity dt)
    if sqrtLT (distSq p' m.target) (1 / 2) ∨ dot (vsub m.target p) m.velocity < 0 then
      ({ m with velocity := ⟨0, 0⟩, target := p' }, p', true)
    else (m, p', true)

/-- Entities of `view<Movement, Position, SpatialNode>(exclude<StateAttackingTag>)`. -/
def viewMoveNode (s : State) : List ℕ :=
  s.entities.filter (fun e =>
    (s.movement e).isSome && (s.position e).isSome && (s.node e).isSome && !s.attacking e)

/-- Entities of `view<Movement, Position>(exclude<StateAttackingTag, SpatialNode>)`. -/
def viewMoveNoNode (s : State) : List ℕ :=
  s.entities.filter (fun e =>
    (s.movement e).isSome && (s.position e).isSome && (s.node e).isNone && !s.attacking e)

/-- Move one grid-indexed entity and push the move into the Spatial
Index when the entity actually moved. -/
def movementStepGrid (cfg : Cfg) (s : State) (dt : ℚ) (e : ℕ) : State :=
  match s.movement e, s.position e with
  | some m, some p =>
    let r := processMovement m p dt
    let s1 := { s with movement := updFn s.movement e (some r.1),
                       position := updFn s.position e (some r.2.1) }
    if r.2.2 then SpatialGrid.update cfg s1 e p r.2.1 else s1
  | _, _ => s

/-- Move one non-indexed entity (e.g. a projectile). -/
def movementStepPlain (s : State) (dt : ℚ) (e : ℕ) : State :=
  match s.movement e, s.position e with
  | some m, some p =>
    let r := processMovement m p dt
    { s with movement := updFn s.movement e (some r.1),
             position := updFn s.position e (some r.2.1) }
  | _, _ => s

/-- `GameplaySystem::update_movement`: indexed movers first, then
non-indexed ones. -/
def update_movement (cfg : Cfg) (s : State) (dt : ℚ) : State :=
  let s1 := (viewMoveNode s).foldl (fun st e => movementStepGrid cfg st dt e) s
  (viewMoveNoNode s1).foldl (fun st e => movementStepPlain st dt e) s1

/-- Running best of the follow target search; the source compares real
distances, encoded here on squares (`sr` is the search radius the best
starts from). -/
def followBestStep (s : State) (pos : Vec2) (sr : ℚ) (self : ℕ)
    (best : Option (ℕ × ℚ)) (a : ℕ) : Option (ℕ × ℚ) :=
  if a = self then best
  else if s.alive a then
    match s.health a, s.position a with
    | some ah, some ap =>
      if 0 < ah.current then
        let dsq := distSq pos ap
        let better :=
          match best with
          | none => decide (sqrtLT dsq sr)
          | some b => decide (dsq < b.2)
        if better then some (a, dsq) else best
      else best
    | _, _ => best
  else best

/-- One entity of `GameplaySystem::update_follow`: retarget on the
per-entity cooldown when the current followed ally is null, invalid or
dead, then move toward the ally only while outside the follow range,
clamping back onto the follow-range circle on overshoot. -/
def followStep (cfg : Cfg) (nrm : Vec2 → Vec2) (fuel : ℕ) (s : State) (dt : ℚ) (e : ℕ) :
    State :=
  match s.followC e, s.position e, s.faction e with
  | some fl, some pos, some fid =>
    let fl1 := { fl with targetTimer := fl.targetTimer + dt }
    let needNew :=
      match fl1.target with
      | none => true
      | some t =>
        if !s.alive t then true
        else
          match s.health t with
          | some th => decide (th.current ≤ 0)
          | none => true
    let fl2 :=
      if needNew && decide (fl1.targetTimer ≥ fl1.targetCooldown) then
        let found := (queryRadiusList cfg s fuel pos fl1.searchRadius fid true).foldl
          (followBestStep s pos fl1.searchRadius e) none
        { fl1 with targetTimer := 0, target := found.map (fun b => b.1) }
      else fl1
    let s1 := { s with followC := updFn s.followC e (some fl2) }
    match fl2.target with
    | some t =>
      if s1.alive t then
        match s1.position t with
        | some tp =>
          if sqrtGT (distSq pos tp) fl2.followRange then
            let dir := nrm (vsub tp pos)
            let vel := scale dir fl2.speed
            let p' := vadd pos (scale vel dt)
            let p'' :=
              if sqrtLT (distSq p' tp) fl2.followRange then
                vadd tp (scale (nrm (vsub p' tp)) fl2.followRange)
              else p'
            let s2 := { s1 with position := updFn s1.position e (some p'') }
            SpatialGrid.update cfg s2 e pos p''
          else s1
        | none => s1
      else s1
    | none => s1
  | _, _, _ => s

/-- `GameplaySystem::update_follow` over its view. -/
def update_follow (cfg : Cfg) (nrm : Vec2 → Vec2) (fuel : ℕ) (s : State) (dt : ℚ) : State :=
  (s.entities.filter (fun e =>
      (s.followC e).isSome && (s.position e).isSome && (s.faction e).isSome &&
      (s.node e).isSome)).foldl
    (fun st e => followStep cfg nrm fuel st dt e) s

/-- Modelled from the spec: the targeting interval (`_targeting_interval`,
declared in the absent gameplay header); the spec says target search
runs "once per simulated second". -/
def targetingInterval : ℚ := 1

/-- Shared shape of both targeting loops: decide whether the current
target is still null/invalid/dead/out-of-range. -/
def needNewTarget (s : State) (pos : Vec2) (range : ℚ) (tOpt : Option ℕ) : Bool :=
  match tOpt with
  | none => true
  | some t =>
    if !s.alive t then true
    else
      match s.health t, s.position t with
      | some th, some tp =>
        if th.current ≤ 0 then true else decide (sqrtGT (distSq pos tp) range)
      | _, _ => true

/-- One melee-armed entity of `GameplaySystem::update_targeting`:
re-acquire via `FindNearest(…, faction, false)` when needed, then sync
the attacking tag with target presence. -/
def targetingStepMelee (cfg : Cfg) (fuel : ℕ) (s : State) (e : ℕ) : State :=
  match s.attackTarget e, s.position e, s.faction e, s.directDamage e with
  | some tOpt, some pos, some fid, some dd =>
    let newT :=
      if needNewTarget s pos dd.range tOpt then findNearest cfg s fuel pos dd.range fid false
      else tOpt
    let s1 := { s with attackTarget := updFn s.attackTarget e (some newT) }
    { s1 with attacking := fun x => if x = e then newT.isSome else s1.attacking x }
  | _, _, _, _ => s

/-- One ranged entity of `GameplaySystem::update_targeting`. -/
def targetingStepRanged (cfg : Cfg) (fuel : ℕ) (s : State) (e : ℕ) : State :=
  match s.attackTarget e, s.position e, s.faction e, s.emitter e with
  | some tOpt, some pos, some fid, some em =>
    let newT :=
      if needNewTarget s pos em.range tOpt then findNearest cfg s fuel pos em.range fid false
      else tOpt
    let s1 := { s with attackTarget := updFn s.attackTarget e (some newT) }
    { s1 with attacking := fun x => if x = e then newT.isSome else s1.attacking x }
  | _, _, _, _ => s

/-- `GameplaySystem::update_targeting`: rate-limited by the targeting
timer; melee view first, then ranged view. -/
def update_targeting (cfg : Cfg) (fuel : ℕ) (s : State) (dt : ℚ) : State :=
  let tt := s.targetingTimer + dt
  if tt < targetingInterval then { s with targetingTimer := tt }
  else
    let s0 := { s with targetingTimer := 0 }
    let s1 := (s0.entities.filter (fun e =>
        (s0.attackTarget e).isSome && (s0.position e).isSome && (s0.faction e).isSome &&
        (s0.directDamage e).isSome)).foldl (fun st e => targetingStepMelee cfg fuel st e) s0
    (s1.entities.filter (fun e =>
        (s1.attackTarget e).isSome && (s1.position e).isSome && (s1.faction e).isSome &&
        (s1.emitter e).isSome)).foldl (fun st e => targetingStepRanged cfg fuel st e) s1

/-- One attacker of `GameplaySystem::update_melee_combat`: advance the
cooldown timer; if it elapsed and the target is a valid entity with
Health and Position within range, apply shielded damage and reset the
timer. -/
def meleeStep (s : State) (dt : ℚ) (e : ℕ) : State :=
  match s.directDamage e, s.attackTarget e, s.position e with
  | some dd, some tOpt, some pos =>
    let dd1 := { dd with timer := dd.timer + dt }
    let s1 := { s with directDamage := updFn s.directDamage e (some dd1) }
    if dd1.timer ≥ dd1.cooldown then
      match tOpt with
      | some t =>
        if s1.alive t then
          match s1.health t, s1.position t with
          | some th, some tp =>
            if sqrtLE (distSq pos tp) dd1.range then
              let s2 := { s1 with health := updFn s1.health t (some (th.damage dd1.damage)) }
              { s2 with directDamage := updFn s2.directDamage e (some { dd1 with timer := 0 }) }
            else s1
          | _, _ => s1
        else s1
      | none => s1
    else s1
  | _, _, _ => s

/-- `GameplaySystem::update_melee_combat` over its view (which requires
the attacking tag). -/
def update_melee_combat (s : State) (dt : ℚ) : State :=
  (s.entities.filter (fun e =>
      (s.directDamage e).isSome && (s.attackTarget e).isSome && s.attacking e &&
      (s.position e).isSome && (s.faction e).isSome)).foldl
    (fun st e => meleeStep st dt e) s

/-- One emitter of `GameplaySystem::update_ranged_combat`: on an elapsed
cooldown with a valid in-range target, spawn a projectile entity at the
attacker's position aimed at the target's current position, and reset
the timer. -/
def rangedStep (nrm : Vec2 → Vec2) (s : State) (dt : ℚ) (e : ℕ) : State :=
  match s.emitter e, s.attackTarget e, s.position e, s.faction e with
  | some em, some tOpt, some pos, some fid =>
    let em1 := { em with timer := em.timer + dt }
    let s1 := { s with emitter := updFn s.emitter e (some em1) }
    if em1.timer ≥ em1.cooldown then
      match tOpt with
      | some t =>
        if s1.alive t then
          match s1.position t with
          | some tp =>
            if sqrtLE (distSq pos tp) em1.range then
              let pid := s1.nextId
              let s2 := { s1 with
                nextId := pid + 1,
                entities := s1.entities ++ [pid],
                alive := fun x => if x = pid then true else s1.alive x,
                position := updFn s1.position pid (some pos),
                projectileC := updFn s1.projectileC pid
                  (some ⟨em1.damage, fid, decide (em1.projectile_type = 1), em1.aoe_radius⟩),
                movement := updFn s1.movement pid
                  (some ⟨scale (nrm (vsub tp pos)) em1.projectile_speed, tp,
                         em1.projectile_speed⟩),
                unitC := updFn s1.unitC pid (some (0, fid)) }
              { s2 with emitter := updFn s2.emitter e (some { em1 with timer := 0 }) }
            else s1
          | none => s1
        else s1
      | none => s1
    else s1
  | _, _, _, _ => s

/-- `GameplaySystem::update_ranged_combat` over its view. -/
def update_ranged_combat (nrm : Vec2 → Vec2) (s : State) (dt : ℚ) : State :=
  (s.entities.filter (fun e =>
      (s.emitter e).isSome && (s.attackTarget e).isSome && s.attacking e &&
      (s.position e).isSome && (s.faction e).isSome)).foldl
    (fun st e => rangedStep nrm st dt e) s

/-- The healer's per-ally callback: a valid ally with Health below max
is healed by the flat amount, clamped to max. -/
def healOne (amt : ℚ) (s : State) (a : ℕ) : State :=
  if s.alive a then
    match s.health a with
    | some h =>
      if h.isFull then s
      else { s with health := updFn s.health a (some (h.heal amt)) }
    | none => s
  else s

/-- One healer of `GameplaySystem::update_healer`: advance the cooldown
timer; when elapsed, heal every same-faction entity found by the radius
query around the healer's own position, then reset the timer. -/
def healerStep (cfg : Cfg) (fuel : ℕ) (s : State) (dt : ℚ) (e : ℕ) : State :=
  match s.healerC e, s.position e, s.faction e with
  | some hl, some pos, some fid =>
    let hl1 := { hl with timer := hl.timer + dt }
    let s1 := { s with healerC := updFn s.healerC e (some hl1) }
    if hl1.timer ≥ hl1.cooldown then
      let s2 := (queryRadiusList cfg s1 fuel pos hl1.range fid true).foldl
        (healOne hl1.heal_amount) s1
      { s2 with healerC := updFn s2.healerC e (some { hl1 with timer := 0 }) }
    else s1
  | _, _, _ => s

/-- `GameplaySystem::update_healer` over its view. -/
def update_healer (cfg : Cfg) (fuel : ℕ) (s : State) (dt : ℚ) : State :=
  (s.entities.filter (fun e =>
      (s.healerC e).isSome && (s.position e).isSome && (s.faction e).isSome)).foldl
    (fun st e => healerStep cfg fuel st dt e) s

/-- Destroy an entity: drop it from the registry together with all its
components (`registry.destroy`). -/
def destroyEntity (s : State) (e : ℕ) : State :=
  { s with
    entities := s.entities.erase e,
    alive := fun x => if x = e then false else s.alive x,
    position := updFn s.position e none,
    movement := updFn s.movement e none,
    faction := updFn s.faction e none,
    health := updFn s.health e none,
    directDamage := updFn s.directDamage e none,
    emitter := updFn s.emitter e none,
    healerC := updFn s.healerC e none,
    attackTarget := updFn s.attackTarget e none,
    projectileC := updFn s.projectileC e none,
    unitC := updFn s.unitC e none,
    followC := updFn s.followC e none,
    attacking := fun x => if x = e then false else s.attacking x,
    node := updFn s.node e none }

/-- Area-of-effect impact: every enemy of the projectile's faction
within the area radius takes `damage − shield` when positive. -/
def projAoe (cfg : Cfg) (fuel : ℕ) (s : State) (pos : Vec2) (pr : Projectile) : State :=
  (queryRadiusList cfg s fuel pos pr.aoe_radius pr.faction false).foldl
    (fun st a =>
      if st.alive a then
        match st.health a with
        | some h =>
          if 0 < pr.damage - h.shield then
            let h' : Health := { h with current := h.current - (pr.damage - h.shield) }
            { st with health := updFn st.health a (some h') }
          else st
        | none => st
      else st) s

/-- Single-target impact: the nearest enemy within a fixed radius of 1
takes shielded damage. -/
def projSingle (cfg : Cfg) (fuel : ℕ) (s : State) (pos : Vec2) (pr : Projectile) : State :=
  match findNearest cfg s fuel pos 1 pr.faction false with
  | some t =>
    if s.alive t then
      match s.health t with
      | some h => { s with health := updFn s.health t (some (h.damage pr.damage)) }
      | none => s
    else s
  | none => s

/-- `GameplaySystem::update_projectiles`: every projectile whose
velocity has reached zero resolves its impact and is queued for
destruction; destruction is applied after the scan. -/
def update_projectiles (cfg : Cfg) (fuel : ℕ) (s : State) (dt : ℚ) : State :=
  let view := s.entities.filter (fun e =>
    (s.projectileC e).isSome && (s.position e).isSome && (s.movement e).isSome)
  let r := view.foldl
    (fun (acc : State × List ℕ) e =>
      match acc.1.projectileC e, acc.1.position e, acc.1.movement e with
      | some pr, some pos, some mv =>
        if mv.velocity.isZero then
          (if pr.is_aoe then (projAoe cfg fuel acc.1 pos pr, acc.2 ++ [e])
           else (projSingle cfg fuel acc.1 pos pr, acc.2 ++ [e]))
        else acc
      | _, _, _ => acc) (s, [])
  r.2.foldl destroyEntity r.1

/-- `GameplaySystem::update_death`: entities at or below zero health are
removed from the Spatial Index and destroyed after the scan. -/
def update_death (s : State) (dt : ℚ) : State :=
  let view := s.entities.filter (fun e => (s.health e).isSome)
  let r := view.foldl
    (fun (acc : State × List ℕ) e =>
      match acc.1.health e with
      | some h =>
        if h.current ≤ 0 then
          (if (acc.1.node e).isSome then SpatialGrid.remove acc.1 e else acc.1, acc.2 ++ [e])
        else acc
      | none => acc) (s, [])
  r.2.foldl destroyEntity r.1

/-- `GameplaySystem::update`: the whole tick is skipped when `dt == 0`;
otherwise the eight resolver stages run strictly in order. -/
def GameplaySystem.update (cfg : Cfg) (nrm : Vec2 → Vec2) (fuel : ℕ) (s : State) (dt : ℚ) :
    State :=
  if dt = 0 then s
  else
    update_death
      (update_projectiles cfg fuel
        (update_healer cfg fuel
          (update_ranged_combat nrm
            (update_melee_combat
              (update_targeting cfg fuel
                (update_follow cfg nrm fuel
                  (update_movement cfg s dt) dt) dt) dt) dt) dt) dt) dt

/-! ## Well-formedness of the intrusive grid -/

/-- Entity `e` is recorded as indexed at faction `f`, cell `ci` (a node
with `cell_index ≠ -1`). -/
def indexedAt (s : State) (e : ℕ) (f ci : ℤ) : Prop :=
  ∃ n, s.node e = some n ∧ n.faction = f ∧ n.cell_index = ci ∧ ci ≠ -1

/-- Entity `e` is not currently indexed (no node, or a blanked one). -/
def NotIndexed (s : State) (e : ℕ) : Prop :=
  ∀ n, s.node e = some n → n.cell_index = -1

/-- First element of `l`, defaulting to `d` (the forward boundary
pointer of a chain segment). -/
def headD (l : List ℕ) (d : Option ℕ) : Option ℕ :=
  match l with
  | [] => d
  | a :: _ => some a

/-- Last element of `l`, defaulting to `d` (the backward boundary
pointer of a chain segment). -/
def lastD : List ℕ → Option ℕ → Option ℕ
  | [], d => d
  | a :: t, _ => lastD t (some a)

/-- The intrusive links of the consecutive entities `l`, sitting between
back pointer `pv` and forward pointer `nxt`, all owned by bucket
`(f, ci)`: each node's `prev` is its predecessor (or `pv` at the front)
and each node's `next` is its successor (or `nxt` at the back). -/
def segOK (s : State) (f ci : ℤ) : Option ℕ → List ℕ → Option ℕ → Prop
  | _, [], _ => True
  | pv, e :: rest, nxt =>
    (∃ n, s.node e = some n ∧ n.prev = pv ∧ n.next = headD rest nxt ∧
      n.cell_index = ci ∧ n.faction = f) ∧ segOK s f ci (some e) rest nxt

/-- A full chain: a segment whose forward boundary is null. -/
def chainOK (s : State) (f ci : ℤ) (pv : Option ℕ) (l : List ℕ) : Prop :=
  segOK s f ci pv l none

/-- Bucket `(f, ci)` holds exactly the entities of `l`, head first. -/
def bucketOK (s : State) (f ci : ℤ) (l : List ℕ) : Prop :=
  s.cells f ci = l.head? ∧ chainOK s f ci none l

/-- Structural well-formedness of the whole grid: some contents
function lists every bucket consistently, every indexed entity is in
its bucket, non-empty buckets have in-range coordinates, and buckets
have no duplicates. -/
structure WF (cfg : Cfg) (s : State) (content : ℤ → ℤ → List ℕ) : Prop where
  buckets : ∀ f ci, bucketOK s f ci (content f ci)
  mem_of_indexed : ∀ e f ci, indexedAt s e f ci → e ∈ content f ci
  ranges : ∀ f ci, content f ci ≠ [] →
    0 ≤ f ∧ f < MAX_FACTIONS ∧ 0 ≤ ci ∧ ci < cfg.cols * cfg.rows
  nodup : ∀ f ci, (content f ci).Nodup

/-- Every indexed entity's recorded cell matches its current Position
(true whenever the index is kept in sync through `Update`). -/
def PosConsistent (cfg : Cfg) (s : State) : Prop :=
  ∀ e n p, s.node e = some n → n.cell_index ≠ -1 → s.position e = some p →
    n.cell_index = getCellIndex cfg p

/-- Replace one bucket's contents in a content function. -/
def updContent (c : ℤ → ℤ → List ℕ) (f ci : ℤ) (l : List ℕ) : ℤ → ℤ → List ℕ :=
  fun g cj => if g = f ∧ cj = ci then l else c g cj

/-! ## Operation sequences on the Spatial Index -/

/-- A public Spatial Index call. -/
inductive Op where
  | ins (e : ℕ) (p : Vec2) (f : ℤ)
  | rem (e : ℕ)
  | upd (e : ℕ) (oldP newP : Vec2)

/-- Run one call. -/
def applyOp (cfg : Cfg) (s : State) : Op → State
  | .ins e p f => SpatialGrid.insert cfg s e p f
  | .rem e => SpatialGrid.remove s e
  | .upd e oldP newP => SpatialGrid.update cfg s e oldP newP

/-- Run a sequence of calls. -/
def applyOps (cfg : Cfg) (s : State) (ops : List Op) : State :=
  ops.foldl (applyOp cfg) s

/-- A call sequence in which `Insert` is only ever invoked on an entity
that is not indexed at the moment of that call. -/
def LegalFrom (cfg : Cfg) : State → List Op → Prop
  | _, [] => True
  | s, op :: rest =>
    (∀ e p f, op = .ins e p f → NotIndexed s e) ∧ LegalFrom cfg (applyOp cfg s op) rest

/-- Entity `e` is reachable in the intrusive list of bucket `(f, ci)`
(walked with the given fuel). -/
def bucketMem (s : State) (fuel : ℕ) (f ci : ℤ) (e : ℕ) : Prop :=
  e ∈ chainWalk s fuel (s.cells f ci)

instance (s : State) (fuel : ℕ) (f ci : ℤ) (e : ℕ) : Decidable (bucketMem s fuel f ci e) := by
  unfold bucketMem; infer_instance

/-- A registry with no components and no grid contents, over entity `0`
(the seed of the concrete examples below). -/
def exEmpty : State where
  nextId := 1
  entities := [0]
  alive := fun _ => true
  position := fun _ => none
  movement := fun _ => none
  faction := fun _ => none
  health := fun _ => none
  directDamage := fun _ => none
  emitter := fun _ => none
  healerC := fun _ => none
  attackTarget := fun _ => none
  projectileC := fun _ => none
  unitC := fun _ => none
  followC := fun _ => none
  attacking := fun _ => false
  node := fun _ => none
  cells := fun _ _ => none
  targetingTimer := 0

/-- A 2-column, 1-row grid with cell size 10 (world 20 × 10). -/
def cfg0 : Cfg := ⟨2, 1, 10⟩

/-! ## Exactness of the radius queries -/

/-- The faction-filter semantics of §4.1 as a predicate on the faction
`g` an entity is indexed under: a filter faction `f < 0` (or any value
outside `[0, MAX_FACTIONS)`) accepts every faction; `f ∈ [0,
MAX_FACTIONS)` with `same_faction` accepts exactly `g = f`; with
`¬same_faction` exactly `g ≠ f`. -/
def modeOK (f : ℤ) (sf : Bool) (g : ℤ) : Prop :=
  if 0 ≤ f ∧ f < MAX_FACTIONS then (if sf then g = f else g ≠ f) else True

instance (f : ℤ) (sf : Bool) (g : ℤ) : Decidable (modeOK f sf g) := by
  unfold modeOK; infer_instance

/-- Invariant of `FindNearest`'s running best over a candidate list:
either nothing was accepted yet and the best distance is still the
initial `rsq`, or the best is a candidate with a Position at exactly
the recorded squared distance, strictly below `rsq`. -/
def nearGood (s : State) (pos : Vec2) (rsq : ℚ) (cand : List ℕ) (b : Option ℕ × ℚ) : Prop :=
  (b.1 = none ∧ b.2 = rsq) ∨
    (∃ e p, b.1 = some e ∧ s.position e = some p ∧ distSq pos p = b.2 ∧ b.2 < rsq ∧
      e ∈ cand)

/-- A populated 2 × 1 example grid: entity 0 (faction 0) at (5,5) in
cell 0, entity 1 (faction 1) at (6,5) in cell 0, entity 2 (faction 0)
at (15,5) in cell 1. -/
def exState : State :=
  { exEmpty with
    nextId := 3
    entities := [0, 1, 2]
    position := fun e =>
      if e = 0 then some ⟨5, 5⟩ else if e = 1 then some ⟨6, 5⟩ else
      if e = 2 then some ⟨15, 5⟩ else none
    faction := fun e =>
      if e = 0 then some 0 else if e = 1 then some 1 else if e = 2 then some 0 else none
    node := fun e =>
      if e = 0 then some ⟨none, none, 0, 0⟩ else if e = 1 then some ⟨none, none, 0, 1⟩ else
      if e = 2 then some ⟨none, none, 1, 0⟩ else none
    cells := fun g ci =>
      if g = 0 ∧ ci = 0 then some 0 else if g = 1 ∧ ci = 0 then some 1 else
      if g = 0 ∧ ci = 1 then some 2 else none }

/-- Bucket contents of `exState`. -/
def exContent : ℤ → ℤ → List ℕ := fun g ci =>
  if g = 0 ∧ ci = 0 then [0] else if g = 1 ∧ ci = 0 then [1] else
  if g = 0 ∧ ci = 1 then [2] else []

/-- A one-entity state: entity 0 has a Faction attribute (id 0) but is
not yet indexed. -/
def sIns : State :=
  { exEmpty with faction := fun e => if e = 0 then some 0 else none }

/-- A melee scenario: attacker 0 at the origin (damage 10, range 2,
cooldown 1, timer 1) targeting entity 1 at (1,0) with 30/30 health and
shield 4. -/
def sMelee : State :=
  { exEmpty with
    entities := [0, 1]
    position := fun e => if e = 0 then some ⟨0, 0⟩ else if e = 1 then some ⟨1, 0⟩ else none
    directDamage := fun e => if e = 0 then some ⟨10, 2, 1, 1⟩ else none
    attackTarget := fun e => if e = 0 then some (some 1) else none
    health := fun e => if e = 1 then some ⟨30, 30, 4⟩ else none }

/-- A lone healer: entity 0 at (5,5), faction 0, indexed in cell 0,
health 10/30, heal amount 5, range 10, cooldown 1, timer 1. -/
def sHeal : State :=
  { exEmpty with
    entities := [0]
    position := fun e => if e = 0 then some ⟨5, 5⟩ else none
    faction := fun e => if e = 0 then some 0 else none
    health := fun e => if e = 0 then some ⟨10, 30, 0⟩ else none
    healerC := fun e => if e = 0 then some ⟨5, 10, 1, 1⟩ else none
    node := fun e => if e = 0 then some ⟨none, none, 0, 0⟩ else none
    cells := fun g ci => if g = 0 ∧ ci = 0 then some 0 else none }

/-- Bucket contents of `sHeal`. -/
def cHeal : ℤ → ℤ → List ℕ := fun g ci => if g = 0 ∧ ci = 0 then [0] else []

/-! ## Theorems -/

theorem truncQ_eq (q : ℚ) : truncQ q = if 0 ≤ q then ⌊q⌋ else -⌊-q⌋ := by
  unfold truncQ
  rw [Rat.floor_def, Rat.floor_def]

theorem updFn_same {β : Type} (f : ℕ → β) (a : ℕ) (b : β) : updFn f a b a = b := by
  simp [updFn]

theorem updFn_other {β : Type} (f : ℕ → β) (a : ℕ) (b : β) (x : ℕ) (h : x ≠ a) :
    updFn f a b x = f x := by
  simp [updFn, h]

theorem updCells_same (c : ℤ → ℤ → Option ℕ) (f ci : ℤ) (v : Option ℕ) :
    updCells c f ci v f ci = v := by
  simp [updCells]

theorem updCells_other (c : ℤ → ℤ → Option ℕ) (f ci : ℤ) (v : Option ℕ) (g cj : ℤ)
    (h : ¬(g = f ∧ cj = ci)) : updCells c f ci v g cj = c g cj := by
  simp [updCells, h]

theorem headD_none (l : List ℕ) : headD l none = l.head? := by
  cases l <;> rfl

theorem headD_append (l1 l2 : List ℕ) (d : Option ℕ) :
    headD (l1 ++ l2) d = headD l1 (headD l2 d) := by
  cases l1 <;> rfl

theorem lastD_of_ne_nil (l : List ℕ) (d d' : Option ℕ) (h : l ≠ []) :
    lastD l d = lastD l d' := by
  cases l with
  | nil => exact absurd rfl h
  | cons a t => rfl

theorem segOK_append {s : State} {f ci : ℤ} {l1 l2 : List ℕ} {pv nxt : Option ℕ} :
    segOK s f ci pv (l1 ++ l2) nxt ↔
      segOK s f ci pv l1 (headD l2 nxt) ∧ segOK s f ci (lastD l1 pv) l2 nxt := by
  induction l1 generalizing pv with
  | nil => simp [segOK, lastD]
  | cons a t ih =>
    simp only [List.cons_append, segOK, lastD, List.append_eq, headD_append]
    rw [ih]
    tauto

theorem segOK_mem {s : State} {f ci : ℤ} {pv nxt : Option ℕ} {l : List ℕ} {e : ℕ}
    (h : segOK s f ci pv l nxt) (he : e ∈ l) :
    ∃ n, s.node e = some n ∧ n.cell_index = ci ∧ n.faction = f := by
  induction l generalizing pv with
  | nil => cases he
  | cons a t ih =>
    rcases h with ⟨⟨n, hn, _, _, hc, hf⟩, ht⟩
    rcases List.mem_cons.1 he with rfl | he'
    · exact ⟨n, hn, hc, hf⟩
    · exact ih ht he'

theorem chainOK_mem {s : State} {f ci : ℤ} {pv : Option ℕ} {l : List ℕ} {e : ℕ}
    (h : chainOK s f ci pv l) (he : e ∈ l) :
    ∃ n, s.node e = some n ∧ n.cell_index = ci ∧ n.faction = f :=
  segOK_mem h he

theorem chainWalk_of_chainOK {s : State} {f ci : ℤ} {pv : Option ℕ} {l : List ℕ}
    (h : chainOK s f ci pv l) {fuel : ℕ} (hf : l.length ≤ fuel) :
    chainWalk s fuel l.head? = l := by
  induction l generalizing pv fuel with
  | nil =>
    cases fuel with
    | zero => rfl
    | succ k => rfl
  | cons a t ih =>
    rcases h with ⟨⟨n, hn, _, hnext, _, _⟩, ht⟩
    rw [headD_none] at hnext
    cases fuel with
    | zero => exact absurd hf (by simp)
    | succ k =>
      have hk : t.length ≤ k := by simpa using hf
      simp only [List.head?_cons, chainWalk, hn, Option.some_bind, Option.bind_some, hnext]
      exact congrArg (a :: ·) (ih ht hk)

theorem chainWalk_subset {s : State} {f ci : ℤ} {pv : Option ℕ} {l : List ℕ}
    (h : chainOK s f ci pv l) (fuel : ℕ) {x : ℕ}
    (hx : x ∈ chainWalk s fuel l.head?) : x ∈ l := by
  induction l generalizing pv fuel with
  | nil =>
    cases fuel with
    | zero => cases hx
    | succ k => cases hx
  | cons a t ih =>
    rcases h with ⟨⟨n, hn, _, hnext, _, _⟩, ht⟩
    rw [headD_none] at hnext
    cases fuel with
    | zero => cases hx
    | succ k =>
      simp only [List.head?_cons, chainWalk, hn, Option.some_bind, Option.bind_some, hnext] at hx
      rcases List.mem_cons.1 hx with rfl | hx'
      · exact List.mem_cons_self x t
      · exact List.mem_cons_of_mem a (ih ht k hx')

theorem WF.indexed_of_mem {cfg : Cfg} {s : State} {c : ℤ → ℤ → List ℕ} (w : WF cfg s c)
    {e : ℕ} {f ci : ℤ} (he : e ∈ c f ci) : indexedAt s e f ci := by
  rcases chainOK_mem (w.buckets f ci).2 he with ⟨n, hn, hc, hf⟩
  have hr := w.ranges f ci (by intro h0; rw [h0] at he; cases he)
  exact ⟨n, hn, hf, hc, by omega⟩

theorem WF.bucket_unique {cfg : Cfg} {s : State} {c : ℤ → ℤ → List ℕ} (w : WF cfg s c)
    {e : ℕ} {f ci f' ci' : ℤ} (h1 : e ∈ c f ci) (h2 : e ∈ c f' ci') :
    f = f' ∧ ci = ci' := by
  rcases chainOK_mem (w.buckets f ci).2 h1 with ⟨n, hn, hc, hf⟩
  rcases chainOK_mem (w.buckets f' ci').2 h2 with ⟨n', hn', hc', hf'⟩
  rw [hn] at hn'
  cases hn'
  exact ⟨hf.symm.trans hf', hc.symm.trans hc'⟩

theorem WF.not_mem_of_notIndexed {cfg : Cfg} {s : State} {c : ℤ → ℤ → List ℕ}
    (w : WF cfg s c) {e : ℕ} (h : NotIndexed s e) (f ci : ℤ) : e ∉ c f ci := by
  intro hmem
  rcases w.indexed_of_mem hmem with ⟨n, hn, _, hc, hne⟩
  exact hne (hc ▸ h n hn)

theorem segOK_of_unchanged {s s' : State} {f ci : ℤ} {pv nxt : Option ℕ} {l : List ℕ}
    (hun : ∀ x ∈ l, s'.node x = s.node x) (h : segOK s f ci pv l nxt) :
    segOK s' f ci pv l nxt := by
  induction l generalizing pv with
  | nil => trivial
  | cons a t ih =>
    rcases h with ⟨⟨n, hna, h1, h2, h3, h4⟩, ht⟩
    refine ⟨⟨n, ?_, h1, h2, h3, h4⟩, ih (fun x hx => hun x (List.mem_cons_of_mem a hx)) ht⟩
    rw [hun a (List.mem_cons_self a t)]
    exact hna

theorem chainOK_congr {s s' : State} (hn : s.node = s'.node) {f ci : ℤ}
    {pv : Option ℕ} {l : List ℕ} (h : chainOK s f ci pv l) : chainOK s' f ci pv l :=
  segOK_of_unchanged (fun x _ => hn ▸ rfl) h

/-- Re-point the forward boundary of a segment: if the nodes on `l` are
unchanged except that the last one's `next` was rewritten to `nxt'`,
the segment now ends at `nxt'`. -/
theorem segOK_retarget {s s' : State} {f ci : ℤ} {pv nxt nxt' : Option ℕ} {l : List ℕ}
    (hnd : l.Nodup)
    (hlast : ∀ x, lastD l none = some x →
      ∃ nx, s.node x = some nx ∧ s'.node x = some { nx with next := nxt' })
    (hun : ∀ x ∈ l, lastD l none ≠ some x → s'.node x = s.node x)
    (h : segOK s f ci pv l nxt) : segOK s' f ci pv l nxt' := by
  induction l generalizing pv with
  | nil => trivial
  | cons a t ih =>
    rcases h with ⟨⟨n, hna, h1, h2, h3, h4⟩, ht⟩
    cases t with
    | nil =>
      rcases hlast a rfl with ⟨nx, hnx, hnx'⟩
      rw [hna] at hnx
      cases hnx
      exact ⟨⟨_, hnx', h1, rfl, h3, h4⟩, trivial⟩
    | cons b t2 =>
      have htne : (b :: t2) ≠ ([] : List ℕ) := by simp
      have hlst : lastD (a :: b :: t2) none = lastD (b :: t2) none := by
        show lastD (b :: t2) (some a) = lastD (b :: t2) none
        exact lastD_of_ne_nil _ _ _ htne
      have hamem : lastD (b :: t2) none ≠ some a := by
        intro hcontra
        have : a ∈ b :: t2 := by
          have : ∀ (u : List ℕ) (d : Option ℕ) (x : ℕ), lastD u d = some x →
              x ∈ u ∨ d = some x := by
            intro u
            induction u with
            | nil => intro d x hx; exact Or.inr hx
            | cons c w ihu =>
              intro d x hx
              rcases ihu (some c) x hx with hw | hc
              · exact Or.inl (List.mem_cons_of_mem c hw)
              · cases hc; exact Or.inl (List.mem_cons_self c w)
          rcases this (b :: t2) none a hcontra with hmem | hd
          · exact hmem
          · exact absurd hd (by simp)
        exact (List.nodup_cons.1 hnd).1 this
      refine ⟨⟨n, ?_, h1, ?_, h3, h4⟩, ?_⟩
      · rw [hun a (List.mem_cons_self a _) (by rw [hlst]; exact hamem)]
        exact hna
      · exact h2
      · refine ih (List.nodup_cons.1 hnd).2 ?_ ?_ ht
        · intro x hx; exact hlast x (hlst.trans hx)
        · intro x hx hne
          exact hun x (List.mem_cons_of_mem a hx) (by rw [hlst]; exact hne)

/-- Re-point the backward boundary of a segment: if the nodes on `l` are
unchanged except that the first one's `prev` was rewritten to `pv'`,
the segment now starts from `pv'`. -/
theorem segOK_reprev {s s' : State} {f ci : ℤ} {pv pv' nxt : Option ℕ} {l : List ℕ}
    (hnd : l.Nodup)
    (hhead : ∀ x, l.head? = some x →
      ∃ nx, s.node x = some nx ∧ s'.node x = some { nx with prev := pv' })
    (hun : ∀ x ∈ l, l.head? ≠ some x → s'.node x = s.node x)
    (h : segOK s f ci pv l nxt) : segOK s' f ci pv' l nxt := by
  cases l with
  | nil => trivial
  | cons a t =>
    rcases h with ⟨⟨n, hna, h1, h2, h3, h4⟩, ht⟩
    rcases hhead a rfl with ⟨nx, hnx, hnx'⟩
    rw [hna] at hnx
    cases hnx
    refine ⟨⟨_, hnx', rfl, h2, h3, h4⟩, ?_⟩
    refine segOK_of_unchanged ?_ ht
    intro x hx
    refine hun x (List.mem_cons_of_mem a hx) ?_
    intro hxa
    have hax : a = x := by injection hxa
    exact (List.nodup_cons.1 hnd).1 (by rw [hax]; exact hx)

theorem WF.congr {cfg : Cfg} {s s' : State} {c : ℤ → ℤ → List ℕ}
    (hn : s.node = s'.node) (hc : s.cells = s'.cells) (w : WF cfg s c) : WF cfg s' c := by
  refine ⟨fun f ci => ⟨hc ▸ (w.buckets f ci).1, chainOK_congr hn (w.buckets f ci).2⟩,
    fun e f ci hi => w.mem_of_indexed e f ci ?_, w.ranges, w.nodup⟩
  rcases hi with ⟨n, hne, h1, h2, h3⟩
  exact ⟨n, hn ▸ hne, h1, h2, h3⟩

theorem updFn_updFn {β : Type} (m : ℕ → β) (a : ℕ) (b c : β) :
    updFn (updFn m a b) a c = updFn m a c := by
  funext x
  unfold updFn
  by_cases h : x = a <;> simp [h]

theorem updContent_same (c : ℤ → ℤ → List ℕ) (f ci : ℤ) (l : List ℕ) :
    updContent c f ci l f ci = l := by
  simp [updContent]

theorem updContent_other (c : ℤ → ℤ → List ℕ) (f ci : ℤ) (l : List ℕ) (g cj : ℤ)
    (h : ¬(g = f ∧ cj = ci)) : updContent c f ci l g cj = c g cj := by
  simp [updContent, h]

theorem insertCore_fields (cfg : Cfg) (s : State) (e : ℕ) (p : Vec2) (ef : ℤ)
    (hde : ∀ hd, s.cells ef (getCellIndex cfg p) = some hd → hd ≠ e ∧ (s.node hd).isSome) :
    (insertCore cfg s e p ef).cells = updCells s.cells ef (getCellIndex cfg p) (some e) ∧
    (insertCore cfg s e p ef).node e =
      some ⟨s.cells ef (getCellIndex cfg p), none, getCellIndex cfg p, ef⟩ ∧
    (∀ x, x ≠ e → s.cells ef (getCellIndex cfg p) ≠ some x →
      (insertCore cfg s e p ef).node x = s.node x) ∧
    (∀ hd nh, s.cells ef (getCellIndex cfg p) = some hd → s.node hd = some nh →
      (insertCore cfg s e p ef).node hd = some { nh with prev := some e }) ∧
    (insertCore cfg s e p ef).position = s.position ∧
    (insertCore cfg s e p ef).faction = s.faction ∧
    (insertCore cfg s e p ef).alive = s.alive ∧
    (insertCore cfg s e p ef).health = s.health ∧
    (insertCore cfg s e p ef).entities = s.entities := by
  cases hcase : s.cells ef (getCellIndex cfg p) with
  | none =>
    refine ⟨?_, ?_, ?_, ?_, ?_, ?_, ?_, ?_, ?_⟩
    · simp [insertCore, gridInsertRaw, setNode, hcase]
    · simp [insertCore, gridInsertRaw, setNode, hcase, updFn]
    · intro x hx _
      simp [insertCore, gridInsertRaw, setNode, hcase, updFn, hx]
    · intro hd nh h1 _
      simp at h1
    · simp [insertCore, gridInsertRaw, setNode, hcase]
    · simp [insertCore, gridInsertRaw, setNode, hcase]
    · simp [insertCore, gridInsertRaw, setNode, hcase]
    · simp [insertCore, gridInsertRaw, setNode, hcase]
    · simp [insertCore, gridInsertRaw, setNode, hcase]
  | some hd =>
    obtain ⟨hdne, hs⟩ := hde hd hcase
    obtain ⟨nh, hnh⟩ := Option.isSome_iff_exists.1 hs
    have hdne' : ¬hd = e := hdne
    have hedh : ¬e = hd := fun h => hdne h.symm
    refine ⟨?_, ?_, ?_, ?_, ?_, ?_, ?_, ?_, ?_⟩
    · simp [insertCore, gridInsertRaw, setNode, hcase, updFn, hdne', hedh, hnh]
    · simp [insertCore, gridInsertRaw, setNode, hcase, updFn, hdne', hedh, hnh]
    · intro x hx hx2
      have hxhd : ¬x = hd := by intro h; exact hx2 (by rw [h])
      simp [insertCore, gridInsertRaw, setNode, hcase, updFn, hdne', hedh, hnh, hx, hxhd]
    · intro hd' nh' h1 h2
      injection h1 with h1
      subst h1
      rw [hnh] at h2
      injection h2 with h2
      subst h2
      simp [insertCore, gridInsertRaw, setNode, hcase, updFn, hdne', hedh, hnh]
    · simp [insertCore, gridInsertRaw, setNode, hcase, updFn, hdne', hedh, hnh]
    · simp [insertCore, gridInsertRaw, setNode, hcase, updFn, hdne', hedh, hnh]
    · simp [insertCore, gridInsertRaw, setNode, hcase, updFn, hdne', hedh, hnh]
    · simp [insertCore, gridInsertRaw, setNode, hcase, updFn, hdne', hedh, hnh]
    · simp [insertCore, gridInsertRaw, setNode, hcase, updFn, hdne', hedh, hnh]

theorem removeCore_fields (s : State) (e : ℕ) (n : SpatialNode)
    (hnp : ∀ pv, n.prev = some pv → pv ≠ e ∧ (s.node pv).isSome)
    (hnx : ∀ nx, n.next = some nx → nx ≠ e ∧ (s.node nx).isSome)
    (hpn : ∀ pv nx, n.prev = some pv → n.next = some nx → pv ≠ nx) :
    (removeCore s e n).node e = some { n with cell_index := -1, faction := -1 } ∧
    (n.prev = none →
      (removeCore s e n).cells = updCells s.cells n.faction n.cell_index n.next) ∧
    (n.prev ≠ none → (removeCore s e n).cells = s.cells) ∧
    (∀ pv np, n.prev = some pv → s.node pv = some np →
      (removeCore s e n).node pv = some { np with next := n.next }) ∧
    (∀ nx nn, n.next = some nx → s.node nx = some nn →
      (removeCore s e n).node nx = some { nn with prev := n.prev }) ∧
    (∀ x, x ≠ e → n.prev ≠ some x → n.next ≠ some x →
      (removeCore s e n).node x = s.node x) ∧
    (removeCore s e n).position = s.position ∧ (removeCore s e n).faction = s.faction ∧
    (removeCore s e n).alive = s.alive ∧ (removeCore s e n).health = s.health ∧
    (removeCore s e n).entities = s.entities := by
  cases hp : n.prev with
  | none =>
    cases hq : n.next with
    | none =>
      refine ⟨?_, fun _ => ?_, fun h => absurd rfl h, ?_, ?_, ?_, ?_, ?_, ?_, ?_, ?_⟩
      · simp [removeCore, setNode, hp, hq, updFn]
      · simp [removeCore, setNode, hp, hq]
      · intro pv np h1 _; simp at h1
      · intro nx nn h1 _; simp at h1
      · intro x hx _ _
        simp [removeCore, setNode, hp, hq, updFn, hx]
      all_goals simp [removeCore, setNode, hp, hq]
    | some nx =>
      obtain ⟨hnxe, hs⟩ := hnx nx hq
      obtain ⟨nn, hnn⟩ := Option.isSome_iff_exists.1 hs
      have hnxe' : ¬nx = e := hnxe
      refine ⟨?_, fun _ => ?_, fun h => absurd rfl h, ?_, ?_, ?_, ?_, ?_, ?_, ?_, ?_⟩
      · simp [removeCore, setNode, hp, hq, hnn, updFn, hnxe']
      · simp [removeCore, setNode, hp, hq, hnn]
      · intro pv np h1 _; simp at h1
      · intro nx' nn' h1 h2
        injection h1 with h1
        subst h1
        rw [hnn] at h2
        injection h2 with h2
        subst h2
        simp [removeCore, setNode, hp, hq, hnn, updFn, hnxe']
      · intro x hx _ hx2
        have hxnx : ¬x = nx := by intro h; exact hx2 (by rw [h])
        simp [removeCore, setNode, hp, hq, hnn, updFn, hx, hxnx]
      all_goals simp [removeCore, setNode, hp, hq, hnn]
  | some pv =>
    obtain ⟨hpve, hs⟩ := hnp pv hp
    obtain ⟨np, hnp'⟩ := Option.isSome_iff_exists.1 hs
    have hpve' : ¬pv = e := hpve
    cases hq : n.next with
    | none =>
      refine ⟨?_, fun h => ?_, fun _ => ?_, ?_, ?_, ?_, ?_, ?_, ?_, ?_, ?_⟩
      · simp [removeCore, setNode, hp, hq, hnp', updFn, hpve']
      · cases h
      · simp [removeCore, setNode, hp, hq, hnp']
      · intro pv' np' h1 h2
        injection h1 with h1
        subst h1
        rw [hnp'] at h2
        injection h2 with h2
        subst h2
        simp [removeCore, setNode, hp, hq, hnp', updFn, hpve']
      · intro nx nn h1 _; simp at h1
      · intro x hx hx1 _
        have hxpv : ¬x = pv := by intro h; exact hx1 (by rw [h])
        simp [removeCore, setNode, hp, hq, hnp', updFn, hx, hxpv]
      all_goals simp [removeCore, setNode, hp, hq, hnp']
    | some nx =>
      obtain ⟨hnxe, hs2⟩ := hnx nx hq
      obtain ⟨nn, hnn⟩ := Option.isSome_iff_exists.1 hs2
      have hnxe' : ¬nx = e := hnxe
      have hpvnx : pv ≠ nx := hpn pv nx hp hq
      have hnxpv : ¬nx = pv := fun h => hpvnx h.symm
      refine ⟨?_, fun h => ?_, fun _ => ?_, ?_, ?_, ?_, ?_, ?_, ?_, ?_, ?_⟩
      · simp [removeCore, setNode, hp, hq, hnp', hnn, updFn, hpve', hnxe', hnxpv]
      · cases h
      · simp [removeCore, setNode, hp, hq, hnp', hnn, updFn, hnxpv]
      · intro pv' np' h1 h2
        injection h1 with h1
        subst h1
        rw [hnp'] at h2
        injection h2 with h2
        subst h2
        simp [removeCore, setNode, hp, hq, hnp', hnn, updFn, hpve', hnxpv, hpvnx]
      · intro nx' nn' h1 h2
        injection h1 with h1
        subst h1
        rw [hnn] at h2
        injection h2 with h2
        subst h2
        simp [removeCore, setNode, hp, hq, hnp', hnn, updFn, hnxe', hnxpv]
      · intro x hx hx1 hx2
        have hxpv : ¬x = pv := by intro h; exact hx1 (by rw [h])
        have hxnx : ¬x = nx := by intro h; exact hx2 (by rw [h])
        simp [removeCore, setNode, hp, hq, hnp', hnn, updFn, hnxpv, hx, hxpv, hxnx]
      all_goals simp [removeCore, setNode, hp, hq, hnp', hnn, updFn, hnxpv]

/-! ## Cell-coordinate arithmetic -/

theorem truncQ_mono {a b : ℚ} (h : a ≤ b) : truncQ a ≤ truncQ b := by
  rw [truncQ_eq, truncQ_eq]
  by_cases ha : 0 ≤ a
  · have hb : 0 ≤ b := le_trans ha h
    simp only [ha, hb, if_true]
    exact Int.floor_le_floor h
  · by_cases hb : 0 ≤ b
    · simp only [ha, hb, if_true, if_false]
      have h1 : (0 : ℤ) ≤ ⌊b⌋ := Int.floor_nonneg.2 hb
      have h2 : (0 : ℤ) ≤ ⌊-a⌋ := Int.floor_nonneg.2 (by linarith)
      omega
    · simp only [ha, hb, if_false]
      have := Int.floor_le_floor (neg_le_neg h)
      omega

theorem clampZ_mono (lo hi : ℤ) {v w : ℤ} (h : v ≤ w) : clampZ lo hi v ≤ clampZ lo hi w :=
  max_le_max le_rfl (min_le_min h le_rfl)

theorem clampZ_bounds (lo hi v : ℤ) (h : lo ≤ hi) :
    lo ≤ clampZ lo hi v ∧ clampZ lo hi v ≤ hi := by
  unfold clampZ
  constructor
  · exact le_max_left lo _
  · exact max_le h (min_le_right v hi)

theorem cellX_mono (cfg : Cfg) (hcs : 1 ≤ cfg.cellSize) {a b : ℚ} (h : a ≤ b) :
    cellX cfg a ≤ cellX cfg b := by
  unfold cellX
  have hpos : (0 : ℚ) < (cfg.cellSize : ℚ) := by exact_mod_cast (by omega : (0:ℤ) < cfg.cellSize)
  exact clampZ_mono _ _ (truncQ_mono (by gcongr))

theorem cellY_mono (cfg : Cfg) (hcs : 1 ≤ cfg.cellSize) {a b : ℚ} (h : a ≤ b) :
    cellY cfg a ≤ cellY cfg b := by
  unfold cellY
  have hpos : (0 : ℚ) < (cfg.cellSize : ℚ) := by exact_mod_cast (by omega : (0:ℤ) < cfg.cellSize)
  exact clampZ_mono _ _ (truncQ_mono (by gcongr))

theorem cellX_bounds (cfg : Cfg) (hc : 1 ≤ cfg.cols) (q : ℚ) :
    0 ≤ cellX cfg q ∧ cellX cfg q ≤ cfg.cols - 1 :=
  clampZ_bounds 0 (cfg.cols - 1) _ (by omega)

theorem cellY_bounds (cfg : Cfg) (hr : 1 ≤ cfg.rows) (q : ℚ) :
    0 ≤ cellY cfg q ∧ cellY cfg q ≤ cfg.rows - 1 :=
  clampZ_bounds 0 (cfg.rows - 1) _ (by omega)

theorem getCellIndex_bounds (cfg : Cfg) (hv : cfg.Valid) (p : Vec2) :
    0 ≤ getCellIndex cfg p ∧ getCellIndex cfg p < cfg.cols * cfg.rows := by
  obtain ⟨hc, hr, _⟩ := hv
  obtain ⟨hx0, hx1⟩ := cellX_bounds cfg hc p.x
  obtain ⟨hy0, hy1⟩ := cellY_bounds cfg hr p.y
  unfold getCellIndex
  constructor
  · have : 0 ≤ cellY cfg p.y * cfg.cols := mul_nonneg hy0 (by omega)
    omega
  · have h1 : cellY cfg p.y * cfg.cols ≤ (cfg.rows - 1) * cfg.cols :=
      mul_le_mul_of_nonneg_right hy1 (by omega)
    nlinarith

theorem mem_cellRange {a b x : ℤ} : x ∈ cellRange a b ↔ a ≤ x ∧ x ≤ b := by
  unfold cellRange
  simp only [List.mem_map, List.mem_range]
  constructor
  · rintro ⟨i, hi, rfl⟩
    omega
  · rintro ⟨h1, h2⟩
    exact ⟨(x - a).toNat, by omega, by omega⟩

theorem mem_lcat {α β : Type} {l : List α} {fn : α → List β} {x : β} :
    x ∈ lcat l fn ↔ ∃ a ∈ l, x ∈ fn a := by
  induction l with
  | nil => simp [lcat]
  | cons a t ih =>
    simp only [lcat, List.mem_append, ih, List.mem_cons]
    constructor
    · rintro (hx | ⟨c, hc, hxc⟩)
      · exact ⟨a, Or.inl rfl, hx⟩
      · exact ⟨c, Or.inr hc, hxc⟩
    · rintro ⟨c, hc | hc, hxc⟩
      · subst hc; exact Or.inl hxc
      · exact Or.inr ⟨c, hc, hxc⟩

theorem mem_visitedIdx {cfg : Cfg} {sx sy ex ey ci : ℤ} :
    ci ∈ visitedIdx cfg sx sy ex ey ↔
      ∃ x y, sx ≤ x ∧ x ≤ ex ∧ sy ≤ y ∧ y ≤ ey ∧ ci = x + y * cfg.cols := by
  unfold visitedIdx
  simp only [mem_lcat, List.mem_map, mem_cellRange]
  constructor
  · rintro ⟨y, ⟨hy1, hy2⟩, x, ⟨hx1, hx2⟩, rfl⟩
    exact ⟨x, y, hx1, hx2, hy1, hy2, rfl⟩
  · rintro ⟨x, y, hx1, hx2, hy1, hy2, rfl⟩
    exact ⟨y, ⟨hy1, hy2⟩, x, ⟨hx1, hx2⟩, rfl⟩

/-! ## Preservation of well-formedness by the grid operations -/

theorem lastD_mem {u : List ℕ} {d : Option ℕ} {x : ℕ} (h : lastD u d = some x) :
    x ∈ u ∨ d = some x := by
  induction u generalizing d with
  | nil => exact Or.inr h
  | cons c w ihu =>
    rcases ihu h with hw | hc
    · exact Or.inl (List.mem_cons_of_mem c hw)
    · injection hc with hc
      subst hc
      exact Or.inl (List.mem_cons_self c w)

theorem lastD_none_eq_nil {u : List ℕ} (h : lastD u none = none) : u = [] := by
  cases u with
  | nil => rfl
  | cons a t =>
    exfalso
    have : ∀ (v : List ℕ) (y : ℕ), lastD v (some y) = none → False := by
      intro v
      induction v with
      | nil => intro y hy; cases hy
      | cons b w ihv => intro y hy; exact ihv b hy
    exact this t a h

theorem WF_insertCore {cfg : Cfg} {s : State} {c : ℤ → ℤ → List ℕ} (hcfg : cfg.Valid)
    (w : WF cfg s c) {e : ℕ} (hni : NotIndexed s e) (p : Vec2) {ef : ℤ}
    (hv : 0 ≤ ef ∧ ef < MAX_FACTIONS) :
    WF cfg (insertCore cfg s e p ef)
      (updContent c ef (getCellIndex cfg p) (e :: c ef (getCellIndex cfg p))) := by
  have hbuck := w.buckets ef (getCellIndex cfg p)
  have hde : ∀ hd, s.cells ef (getCellIndex cfg p) = some hd →
      hd ≠ e ∧ (s.node hd).isSome := by
    intro hd hhd
    have hhd' : (c ef (getCellIndex cfg p)).head? = some hd := by rw [← hbuck.1]; exact hhd
    have hdmem : hd ∈ c ef (getCellIndex cfg p) := List.mem_of_mem_head? hhd'
    constructor
    · intro hde'
      subst hde'
      exact w.not_mem_of_notIndexed hni ef (getCellIndex cfg p) hdmem
    · rcases segOK_mem hbuck.2 hdmem with ⟨n, hn, _, _⟩
      rw [hn]; rfl
  obtain ⟨hcells, hnodee, hunch, hpatch, _, _, _, _, _⟩ := insertCore_fields cfg s e p ef hde
  have hemem : e ∉ c ef (getCellIndex cfg p) :=
    w.not_mem_of_notIndexed hni ef (getCellIndex cfg p)
  have hsub : ∀ (x : ℕ) (g cj : ℤ), x ∈ c g cj →
      x ∈ updContent c ef (getCellIndex cfg p) (e :: c ef (getCellIndex cfg p)) g cj := by
    intro x g cj hx
    by_cases hb : g = ef ∧ cj = getCellIndex cfg p
    · obtain ⟨rfl, rfl⟩ := hb
      rw [updContent_same]
      exact List.mem_cons_of_mem e hx
    · rw [updContent_other _ _ _ _ _ _ hb]
      exact hx
  have hother_unch : ∀ (g cj : ℤ), ¬(g = ef ∧ cj = getCellIndex cfg p) →
      ∀ x ∈ c g cj, (insertCore cfg s e p ef).node x = s.node x := by
    intro g cj hb x hx
    refine hunch x ?_ ?_
    · intro hxe
      subst hxe
      exact w.not_mem_of_notIndexed hni g cj hx
    · intro hxhd
      have hdmem : x ∈ c ef (getCellIndex cfg p) :=
        List.mem_of_mem_head? (by rw [← hbuck.1]; exact hxhd)
      exact hb ⟨(w.bucket_unique hx hdmem).1, (w.bucket_unique hx hdmem).2⟩
  refine ⟨?_, ?_, ?_, ?_⟩
  · intro g cj
    by_cases hb : g = ef ∧ cj = getCellIndex cfg p
    · obtain ⟨rfl, rfl⟩ := hb
      rw [updContent_same]
      constructor
      · rw [hcells, updCells_same]
        rfl
      · refine ⟨⟨_, hnodee, rfl, ?_, rfl, rfl⟩, ?_⟩
        · rw [hbuck.1, headD_none]
        · refine segOK_reprev (w.nodup g (getCellIndex cfg p)) ?_ ?_ hbuck.2
          · intro x hx
            have hhd : s.cells g (getCellIndex cfg p) = some x := by rw [hbuck.1]; exact hx
            obtain ⟨_, hsome⟩ := hde x hhd
            obtain ⟨nx, hnx⟩ := Option.isSome_iff_exists.1 hsome
            exact ⟨nx, hnx, hpatch x nx hhd hnx⟩
          · intro x hx hne
            refine hunch x ?_ ?_
            · intro hxe; subst hxe; exact hemem hx
            · rw [hbuck.1]; exact hne
    · rw [updContent_other _ _ _ _ _ _ hb]
      constructor
      · rw [hcells, updCells_other _ _ _ _ _ _ hb]
        exact (w.buckets g cj).1
      · exact segOK_of_unchanged (hother_unch g cj hb) (w.buckets g cj).2
  · intro e' g cj hi
    rcases hi with ⟨n', hn'e, hfac', hcell', hne'⟩
    by_cases he' : e' = e
    · subst he'
      rw [hnodee] at hn'e
      injection hn'e with hn'e
      subst hn'e
      simp only at hfac' hcell'
      subst hfac'
      subst hcell'
      rw [updContent_same]
      exact List.mem_cons_self _ _
    · by_cases hhd : s.cells ef (getCellIndex cfg p) = some e'
      · obtain ⟨_, hsome⟩ := hde e' hhd
        obtain ⟨nh, hnh⟩ := Option.isSome_iff_exists.1 hsome
        rw [hpatch e' nh hhd hnh] at hn'e
        injection hn'e with hn'e
        subst hn'e
        simp only at hfac' hcell'
        exact hsub e' g cj (w.mem_of_indexed e' g cj ⟨nh, hnh, hfac', hcell', hne'⟩)
      · rw [hunch e' he' hhd] at hn'e
        exact hsub e' g cj (w.mem_of_indexed e' g cj ⟨n', hn'e, hfac', hcell', hne'⟩)
  · intro g cj hne
    by_cases hb : g = ef ∧ cj = getCellIndex cfg p
    · obtain ⟨rfl, rfl⟩ := hb
      obtain ⟨h1, h2⟩ := getCellIndex_bounds cfg hcfg p
      exact ⟨hv.1, hv.2, h1, h2⟩
    · rw [updContent_other _ _ _ _ _ _ hb] at hne
      exact w.ranges g cj hne
  · intro g cj
    by_cases hb : g = ef ∧ cj = getCellIndex cfg p
    · obtain ⟨rfl, rfl⟩ := hb
      rw [updContent_same]
      exact List.nodup_cons.2 ⟨hemem, w.nodup g (getCellIndex cfg p)⟩
    · rw [updContent_other _ _ _ _ _ _ hb]
      exact w.nodup g cj

theorem WF_insert {cfg : Cfg} {s : State} {c : ℤ → ℤ → List ℕ} (hcfg : cfg.Valid)
    (w : WF cfg s c) {e : ℕ} (hni : NotIndexed s e) (p : Vec2) (f : ℤ) :
    ∃ c', WF cfg (SpatialGrid.insert cfg s e p f) c' := by
  unfold SpatialGrid.insert
  cases hres : (if f = -1 then s.faction e else some f) with
  | none => exact ⟨c, w⟩
  | some ef =>
    by_cases hval : ef < 0 ∨ MAX_FACTIONS ≤ ef
    · simp only [hval, if_true]
      exact ⟨c, w⟩
    · simp only [hval, if_false]
      have hv : 0 ≤ ef ∧ ef < MAX_FACTIONS := by
        push_neg at hval
        exact ⟨hval.1, hval.2⟩
      exact ⟨_, WF_insertCore hcfg w hni p hv⟩

theorem remove_eq_none {s : State} {e : ℕ} (hn : s.node e = none) :
    SpatialGrid.remove s e = s := by
  unfold SpatialGrid.remove
  rw [hn]

theorem remove_eq_some {s : State} {e : ℕ} {n : SpatialNode} (hn : s.node e = some n) :
    SpatialGrid.remove s e =
      if n.faction = -1 ∨ n.cell_index = -1 then s
      else if n.faction < 0 ∨ MAX_FACTIONS ≤ n.faction then s
      else removeCore s e n := by
  unfold SpatialGrid.remove
  rw [hn]

theorem update_eq_nonode {cfg : Cfg} {s : State} {e : ℕ} (oldP newP : Vec2)
    (hn : s.node e = none) :
    SpatialGrid.update cfg s e oldP newP = SpatialGrid.insert cfg s e newP (-1) := by
  unfold SpatialGrid.update
  rw [hn]

theorem update_eq_nofaction {cfg : Cfg} {s : State} {e : ℕ} {n : SpatialNode}
    (oldP newP : Vec2) (hn : s.node e = some n) (hf : s.faction e = none) :
    SpatialGrid.update cfg s e oldP newP = SpatialGrid.remove s e := by
  unfold SpatialGrid.update
  rw [hn, hf]

theorem update_eq_faction {cfg : Cfg} {s : State} {e : ℕ} {n : SpatialNode} {newF : ℤ}
    (oldP newP : Vec2) (hn : s.node e = some n) (hf : s.faction e = some newF) :
    SpatialGrid.update cfg s e oldP newP =
      if getCellIndex cfg oldP ≠ getCellIndex cfg newP ∨ n.faction ≠ newF then
        SpatialGrid.insert cfg (SpatialGrid.remove s e) e newP newF
      else s := by
  unfold SpatialGrid.update
  rw [hn, hf]

theorem WF_remove {cfg : Cfg} {s : State} {c : ℤ → ℤ → List ℕ} (w : WF cfg s c) (e : ℕ) :
    ∃ c', WF cfg (SpatialGrid.remove s e) c' ∧ NotIndexed (SpatialGrid.remove s e) e := by
  cases hn : s.node e with
  | none =>
    rw [remove_eq_none hn]
    refine ⟨c, w, ?_⟩
    intro n' h'
    rw [hn] at h'
    cases h'
  | some n =>
    rw [remove_eq_some hn]
    by_cases hg1 : n.faction = -1 ∨ n.cell_index = -1
    · rw [if_pos hg1]
      by_cases hci : n.cell_index = -1
      · refine ⟨c, w, ?_⟩
        intro n' h'
        rw [hn] at h'
        injection h' with h'
        rw [← h']
        exact hci
      · exfalso
        have hidx : indexedAt s e n.faction n.cell_index := ⟨n, hn, rfl, rfl, hci⟩
        have hmem := w.mem_of_indexed e _ _ hidx
        have hrg := w.ranges _ _ (fun h0 => by rw [h0] at hmem; cases hmem)
        rcases hg1 with hf | hcc
        · rw [hf] at hrg
          exact absurd hrg.1 (by norm_num)
        · exact hci hcc
    · rw [if_neg hg1]
      push_neg at hg1
      by_cases hg2 : n.faction < 0 ∨ MAX_FACTIONS ≤ n.faction
      · exfalso
        have hidx : indexedAt s e n.faction n.cell_index := ⟨n, hn, rfl, rfl, hg1.2⟩
        have hmem := w.mem_of_indexed e _ _ hidx
        have hrg := w.ranges _ _ (fun h0 => by rw [h0] at hmem; cases hmem)
        rcases hg2 with h | h
        · exact absurd hrg.1 (by omega)
        · exact absurd hrg.2.1 (by omega)
      · rw [if_neg hg2]
        have hidx : indexedAt s e n.faction n.cell_index := ⟨n, hn, rfl, rfl, hg1.2⟩
        have hmem := w.mem_of_indexed e _ _ hidx
        obtain ⟨l1, l2, hsplit⟩ := List.append_of_mem hmem
        have hnd0 : (c n.faction n.cell_index).Nodup := w.nodup _ _
        have hbuck := w.buckets n.faction n.cell_index
        rw [hsplit] at hnd0 hbuck
        obtain ⟨hnd1, hnd2', hdisj⟩ := List.nodup_append.1 hnd0
        have he2 : e ∉ l2 := (List.nodup_cons.1 hnd2').1
        have hnd2 : l2.Nodup := (List.nodup_cons.1 hnd2').2
        have he1 : e ∉ l1 := fun hx => hdisj hx (List.mem_cons_self e l2)
        have hseg : segOK s n.faction n.cell_index none (l1 ++ e :: l2) none := hbuck.2
        rw [segOK_append] at hseg
        obtain ⟨hseg1, hseg2⟩ := hseg
        obtain ⟨⟨n', hn', hprev, hnext, _, _⟩, hseg2t⟩ := hseg2
        rw [hn] at hn'
        injection hn' with hn'
        subst hn'
        have hprevmem : ∀ pv, n.prev = some pv → pv ∈ l1 := by
          intro pv hpv
          rcases lastD_mem (hprev.symm.trans hpv) with h | h
          · exact h
          · cases h
        have hnextmem : ∀ nx, n.next = some nx → nx ∈ l2 := by
          intro nx hnx
          have hh : headD l2 none = some nx := hnext.symm.trans hnx
          cases l2 with
          | nil => cases hh
          | cons b t =>
            injection hh with hh
            rw [← hh]
            exact List.mem_cons_self b t
        have hnp : ∀ pv, n.prev = some pv → pv ≠ e ∧ (s.node pv).isSome := by
          intro pv hpv
          have hm := hprevmem pv hpv
          refine ⟨fun hh => he1 (hh ▸ hm), ?_⟩
          rcases segOK_mem hseg1 hm with ⟨m, hmx, _, _⟩
          rw [hmx]; rfl
        have hnx : ∀ nx, n.next = some nx → nx ≠ e ∧ (s.node nx).isSome := by
          intro nx hnx2
          have hm := hnextmem nx hnx2
          refine ⟨fun hh => he2 (hh ▸ hm), ?_⟩
          rcases segOK_mem hseg2t hm with ⟨m, hmx, _, _⟩
          rw [hmx]; rfl
        have hpn : ∀ pv nx, n.prev = some pv → n.next = some nx → pv ≠ nx := by
          intro pv nx h1 h2 hEq
          subst hEq
          exact hdisj (hprevmem pv h1) (List.mem_cons_of_mem e (hnextmem pv h2))
        obtain ⟨fE, fCnone, fCsome, fPrev, fNext, fUnch, _, _, _, _, _⟩ :=
          removeCore_fields s e n hnp hnx hpn
        have hcoth : ∀ g cj, ¬(g = n.faction ∧ cj = n.cell_index) →
            (removeCore s e n).cells g cj = s.cells g cj := by
          intro g cj hb
          cases hpcase : n.prev with
          | none => rw [fCnone hpcase, updCells_other _ _ _ _ _ _ hb]
          | some pv => rw [fCsome (by rw [hpcase]; simp)]
        have hunch_other : ∀ g cj, ¬(g = n.faction ∧ cj = n.cell_index) →
            ∀ x ∈ c g cj, (removeCore s e n).node x = s.node x := by
          intro g cj hb x hx
          have hxmain : x ∈ c n.faction n.cell_index → False := by
            intro hx2
            exact hb ⟨(w.bucket_unique hx hx2).1, (w.bucket_unique hx hx2).2⟩
          refine fUnch x ?_ ?_ ?_
          · intro hxe
            subst hxe
            exact hxmain hmem
          · intro hpv2
            refine hxmain ?_
            rw [hsplit]
            exact List.mem_append.2 (Or.inl (hprevmem x hpv2))
          · intro hnx2
            refine hxmain ?_
            rw [hsplit]
            exact List.mem_append.2 (Or.inr (List.mem_cons_of_mem e (hnextmem x hnx2)))
        refine ⟨updContent c n.faction n.cell_index (l1 ++ l2), ⟨?_, ?_, ?_, ?_⟩, ?_⟩
        · intro g cj
          by_cases hb : g = n.faction ∧ cj = n.cell_index
          · obtain ⟨rfl, rfl⟩ := hb
            rw [updContent_same]
            constructor
            · cases hl1 : l1 with
              | nil =>
                have hpnone : n.prev = none := by rw [hprev, hl1]; rfl
                rw [fCnone hpnone, updCells_same, hnext, List.nil_append, headD_none]
              | cons a t =>
                cases hlast : lastD (a :: t) none with
                | none => exact absurd (lastD_none_eq_nil hlast) (by simp)
                | some pv =>
                  have hpv : n.prev = some pv := by rw [hprev, hl1]; exact hlast
                  rw [fCsome (by rw [hpv]; simp), hbuck.1, hl1]
                  rfl
            · show segOK (removeCore s e n) n.faction n.cell_index none (l1 ++ l2) none
              rw [segOK_append]
              constructor
              · have hseg1' : segOK s n.faction n.cell_index none l1 (some e) := hseg1
                refine segOK_retarget hnd1 ?_ ?_ hseg1'
                · intro x hx
                  have hpvx : n.prev = some x := by rw [hprev]; exact hx
                  obtain ⟨_, hsome⟩ := hnp x hpvx
                  obtain ⟨np, hnpx⟩ := Option.isSome_iff_exists.1 hsome
                  refine ⟨np, hnpx, ?_⟩
                  rw [fPrev x np hpvx hnpx, hnext]
                · intro x hxl1 hne
                  refine fUnch x ?_ ?_ ?_
                  · intro hxe
                    subst hxe
                    exact he1 hxl1
                  · rw [hprev]; exact hne
                  · intro hnx2
                    exact hdisj hxl1 (List.mem_cons_of_mem e (hnextmem x hnx2))
              · refine segOK_reprev hnd2 ?_ ?_ hseg2t
                · intro x hx
                  have hnxx : n.next = some x := by rw [hnext, headD_none]; exact hx
                  obtain ⟨_, hsome⟩ := hnx x hnxx
                  obtain ⟨nn, hnnx⟩ := Option.isSome_iff_exists.1 hsome
                  refine ⟨nn, hnnx, ?_⟩
                  rw [fNext x nn hnxx hnnx, hprev]
                · intro x hxl2 hne
                  refine fUnch x ?_ ?_ ?_
                  · intro hxe
                    subst hxe
                    exact he2 hxl2
                  · intro hpv2
                    exact hdisj (hprevmem x hpv2) (List.mem_cons_of_mem e hxl2)
                  · rw [hnext, headD_none]
                    exact hne
          · rw [updContent_other _ _ _ _ _ _ hb]
            refine ⟨?_, segOK_of_unchanged (hunch_other g cj hb) (w.buckets g cj).2⟩
            rw [hcoth g cj hb]
            exact (w.buckets g cj).1
        · intro e' g cj hi
          rcases hi with ⟨m, hme, hfacm, hcellm, hnem⟩
          by_cases he' : e' = e
          · subst he'
            rw [fE] at hme
            injection hme with hme
            rw [← hme] at hcellm
            simp only at hcellm
            exact absurd hcellm.symm hnem
          · have hback : ∃ m0, s.node e' = some m0 ∧ m0.faction = g ∧ m0.cell_index = cj := by
              by_cases hpv : n.prev = some e'
              · obtain ⟨_, hsome⟩ := hnp e' hpv
                obtain ⟨np, hnpx⟩ := Option.isSome_iff_exists.1 hsome
                rw [fPrev e' np hpv hnpx] at hme
                injection hme with hme
                rw [← hme] at hfacm hcellm
                exact ⟨np, hnpx, hfacm, hcellm⟩
              · by_cases hnx2 : n.next = some e'
                · obtain ⟨_, hsome⟩ := hnx e' hnx2
                  obtain ⟨nn, hnnx⟩ := Option.isSome_iff_exists.1 hsome
                  rw [fNext e' nn hnx2 hnnx] at hme
                  injection hme with hme
                  rw [← hme] at hfacm hcellm
                  exact ⟨nn, hnnx, hfacm, hcellm⟩
                · rw [fUnch e' he' hpv hnx2] at hme
                  exact ⟨m, hme, hfacm, hcellm⟩
            obtain ⟨m0, hm0, hf0, hc0⟩ := hback
            have hmem0 : e' ∈ c g cj := w.mem_of_indexed e' g cj ⟨m0, hm0, hf0, hc0, hnem⟩
            by_cases hb : g = n.faction ∧ cj = n.cell_index
            · obtain ⟨rfl, rfl⟩ := hb
              rw [updContent_same]
              rw [hsplit] at hmem0
              rcases List.mem_append.1 hmem0 with h | h
              · exact List.mem_append.2 (Or.inl h)
              · rcases List.mem_cons.1 h with h2 | h2
                · exact absurd h2 he'
                · exact List.mem_append.2 (Or.inr h2)
            · rw [updContent_other _ _ _ _ _ _ hb]
              exact hmem0
        · intro g cj hne
          by_cases hb : g = n.faction ∧ cj = n.cell_index
          · obtain ⟨rfl, rfl⟩ := hb
            refine w.ranges _ _ ?_
            rw [hsplit]
            simp
          · rw [updContent_other _ _ _ _ _ _ hb] at hne
            exact w.ranges g cj hne
        · intro g cj
          by_cases hb : g = n.faction ∧ cj = n.cell_index
          · obtain ⟨rfl, rfl⟩ := hb
            rw [updContent_same]
            refine List.nodup_append.2 ⟨hnd1, hnd2, ?_⟩
            intro x hx1 hx2
            exact hdisj hx1 (List.mem_cons_of_mem e hx2)
          · rw [updContent_other _ _ _ _ _ _ hb]
            exact w.nodup g cj
        · intro n' h'
          rw [fE] at h'
          injection h' with h'
          rw [← h']

theorem WF_update {cfg : Cfg} {s : State} {c : ℤ → ℤ → List ℕ} (hcfg : cfg.Valid)
    (w : WF cfg s c) (e : ℕ) (oldP newP : Vec2) :
    ∃ c', WF cfg (SpatialGrid.update cfg s e oldP newP) c' := by
  cases hn : s.node e with
  | none =>
    rw [update_eq_nonode oldP newP hn]
    refine WF_insert hcfg w ?_ newP (-1)
    intro n' h'
    rw [hn] at h'
    cases h'
  | some n =>
    cases hf : s.faction e with
    | none =>
      rw [update_eq_nofaction oldP newP hn hf]
      obtain ⟨c', w', _⟩ := WF_remove w e
      exact ⟨c', w'⟩
    | some newF =>
      rw [update_eq_faction oldP newP hn hf]
      by_cases hch : getCellIndex cfg oldP ≠ getCellIndex cfg newP ∨ n.faction ≠ newF
      · rw [if_pos hch]
        obtain ⟨c', w', hni'⟩ := WF_remove w e
        exact WF_insert hcfg w' hni' newP newF
      · rw [if_neg hch]
        exact ⟨c, w⟩

theorem WF_exEmpty : WF cfg0 exEmpty (fun _ _ => []) := by
  refine ⟨fun f ci => ⟨rfl, trivial⟩, ?_, ?_, fun f ci => List.nodup_nil⟩
  · intro e f ci hi
    rcases hi with ⟨n, hn, _⟩
    cases hn
  · intro f ci hne
    exact absurd rfl hne

theorem applyOps_WF {cfg : Cfg} (hcfg : cfg.Valid) :
    ∀ (ops : List Op) (s : State) (c : ℤ → ℤ → List ℕ),
      WF cfg s c → LegalFrom cfg s ops → ∃ c', WF cfg (applyOps cfg s ops) c' := by
  intro ops
  induction ops with
  | nil => exact fun s c w _ => ⟨c, w⟩
  | cons op rest ih =>
    intro s c w hleg
    obtain ⟨hins, hrest⟩ := hleg
    have hnext : ∃ c', WF cfg (applyOp cfg s op) c' := by
      cases op with
      | ins e p f => exact WF_insert hcfg w (hins e p f rfl) p f
      | rem e =>
        obtain ⟨c', w', _⟩ := WF_remove w e
        exact ⟨c', w'⟩
      | upd e oldP newP => exact WF_update hcfg w e oldP newP
    obtain ⟨c', w'⟩ := hnext
    exact ih (applyOp cfg s op) c' w' hrest

theorem WF_bucketMem_unique {cfg : Cfg} {s : State} {c : ℤ → ℤ → List ℕ} (w : WF cfg s c)
    {fuel fuel' : ℕ} {f ci f' ci' : ℤ} {e : ℕ}
    (h1 : bucketMem s fuel f ci e) (h2 : bucketMem s fuel' f' ci' e) :
    f = f' ∧ ci = ci' := by
  have hm1 : e ∈ c f ci := by
    refine chainWalk_subset (w.buckets f ci).2 fuel ?_
    rw [← (w.buckets f ci).1]
    exact h1
  have hm2 : e ∈ c f' ci' := by
    refine chainWalk_subset (w.buckets f' ci').2 fuel' ?_
    rw [← (w.buckets f' ci').1]
    exact h2
  exact w.bucket_unique hm1 hm2

/-- C3 (corrected): after any sequence of Insert/Remove/Update calls in
which Insert is only invoked on entities that are not currently indexed,
the grid stays well-formed and every entity is reachable from at most
one (faction, cell) bucket.  (Calling Insert on an already-indexed
entity violates this: see the counterexample.) -/
theorem c3_legal_sequences_at_most_one_bucket
    (cfg : Cfg) (s : State) (c : ℤ → ℤ → List ℕ) (ops : List Op)
    (hcfg : cfg.Valid) (w : WF cfg s c) (hleg : LegalFrom cfg s ops) :
    ∃ c', WF cfg (applyOps cfg s ops) c' ∧
      ∀ (fuel fuel' : ℕ) (e : ℕ) (f ci f' ci' : ℤ),
        bucketMem (applyOps cfg s ops) fuel f ci e →
        bucketMem (applyOps cfg s ops) fuel' f' ci' e →
        f = f' ∧ ci = ci' := by
  obtain ⟨c', w'⟩ := applyOps_WF hcfg ops s c w hleg
  exact ⟨c', w', fun fuel fuel' e f ci f' ci' h1 h2 => WF_bucketMem_unique w' h1 h2⟩

/-- C3 counterexample: as literally stated the claim is false — after
`Insert(0, (5,5), 0); Insert(0, (15,5), 0)` (a double insert of an
already-indexed entity) entity 0 is reachable from bucket (0,0) and
from bucket (0,1) at once. -/
theorem c3_counterexample_double_insert :
    bucketMem (SpatialGrid.insert cfg0 (SpatialGrid.insert cfg0 exEmpty 0 ⟨5, 5⟩ 0) 0
      ⟨15, 5⟩ 0) 1 0 0 0 ∧
    bucketMem (SpatialGrid.insert cfg0 (SpatialGrid.insert cfg0 exEmpty 0 ⟨5, 5⟩ 0) 0
      ⟨15, 5⟩ 0) 1 0 1 0 ∧
    (0 : ℤ) ≠ 1 := by
  refine ⟨?_, ?_, by norm_num⟩ <;>
    norm_num [bucketMem, chainWalk, SpatialGrid.insert, insertCore, gridInsertRaw,
      setNode, updFn, updCells, exEmpty, cfg0, getCellIndex, cellX, cellY, clampZ,
      truncQ, MAX_FACTIONS]

/-- C3 witness: the amended theorem applied to the legal sequence
`Insert(0,(5,5),0); Update(0,(5,5),(15,5)); Remove(0)` from the empty
grid. -/
theorem c3_witness :
    ∃ c', WF cfg0 (applyOps cfg0 exEmpty
        [Op.ins 0 ⟨5, 5⟩ 0, Op.upd 0 ⟨5, 5⟩ ⟨15, 5⟩, Op.rem 0]) c' ∧
      ∀ (fuel fuel' : ℕ) (e : ℕ) (f ci f' ci' : ℤ),
        bucketMem (applyOps cfg0 exEmpty
          [Op.ins 0 ⟨5, 5⟩ 0, Op.upd 0 ⟨5, 5⟩ ⟨15, 5⟩, Op.rem 0]) fuel f ci e →
        bucketMem (applyOps cfg0 exEmpty
          [Op.ins 0 ⟨5, 5⟩ 0, Op.upd 0 ⟨5, 5⟩ ⟨15, 5⟩, Op.rem 0]) fuel' f' ci' e →
        f = f' ∧ ci = ci' := by
  refine c3_legal_sequences_at_most_one_bucket cfg0 exEmpty (fun _ _ => []) _
    (by exact ⟨by norm_num [cfg0], by norm_num [cfg0], by norm_num [cfg0]⟩) WF_exEmpty ?_
  refine ⟨?_, ?_, ?_, trivial⟩
  · intro e p f h
    injection h with h1 h2 h3
    subst h1
    intro n hn
    cases hn
  · intro e p f h
    cases h
  · intro e p f h
    cases h

theorem cfg0_valid : cfg0.Valid :=
  ⟨by norm_num [cfg0], by norm_num [cfg0], by norm_num [cfg0]⟩

theorem insert_eq_noresolve {cfg : Cfg} {s : State} {e : ℕ} {p : Vec2} {f : ℤ}
    (h : (if f = -1 then s.faction e else some f) = none) :
    SpatialGrid.insert cfg s e p f = s := by
  unfold SpatialGrid.insert
  rw [h]

theorem insert_eq_invalid {cfg : Cfg} {s : State} {e : ℕ} {p : Vec2} {f ef : ℤ}
    (h : (if f = -1 then s.faction e else some f) = some ef)
    (hv : ef < 0 ∨ MAX_FACTIONS ≤ ef) :
    SpatialGrid.insert cfg s e p f = s := by
  unfold SpatialGrid.insert
  rw [h]
  show (if ef < 0 ∨ MAX_FACTIONS ≤ ef then s else insertCore cfg s e p ef) = s
  rw [if_pos hv]

theorem insert_eq_core {cfg : Cfg} {s : State} {e : ℕ} {p : Vec2} {f ef : ℤ}
    (h : (if f = -1 then s.faction e else some f) = some ef)
    (hv : ¬(ef < 0 ∨ MAX_FACTIONS ≤ ef)) :
    SpatialGrid.insert cfg s e p f = insertCore cfg s e p ef := by
  unfold SpatialGrid.insert
  rw [h]
  show (if ef < 0 ∨ MAX_FACTIONS ≤ ef then s else insertCore cfg s e p ef) =
    insertCore cfg s e p ef
  rw [if_neg hv]

theorem remove_noop_of_notIndexed {s : State} {e : ℕ} (hni : NotIndexed s e) :
    SpatialGrid.remove s e = s := by
  cases hn : s.node e with
  | none => exact remove_eq_none hn
  | some n =>
    rw [remove_eq_some hn]
    rw [if_pos (Or.inr (hni n hn))]

theorem WF_head_facts {cfg : Cfg} {s : State} {c : ℤ → ℤ → List ℕ} (w : WF cfg s c)
    {e : ℕ} (hni : NotIndexed s e) (g ci : ℤ) :
    ∀ hd, s.cells g ci = some hd → hd ≠ e ∧ (s.node hd).isSome := by
  intro hd hhd
  have hhd' : (c g ci).head? = some hd := by rw [← (w.buckets g ci).1]; exact hhd
  have hdmem := List.mem_of_mem_head? hhd'
  constructor
  · intro h
    subst h
    exact w.not_mem_of_notIndexed hni g ci hdmem
  · rcases segOK_mem (w.buckets g ci).2 hdmem with ⟨n, hn, _, _⟩
    rw [hn]; rfl

/-- C4: inserting a not-currently-indexed entity and then removing it
restores every bucket head and every other entity's node (links
included) to their pre-insert values. -/
theorem c4_insert_remove_roundtrip (cfg : Cfg) (s : State) (c : ℤ → ℤ → List ℕ)
    (hcfg : cfg.Valid) (w : WF cfg s c) (e : ℕ) (hni : NotIndexed s e) (p : Vec2) (f : ℤ) :
    (∀ g cj, (SpatialGrid.remove (SpatialGrid.insert cfg s e p f) e).cells g cj =
      s.cells g cj) ∧
    (∀ x, x ≠ e → (SpatialGrid.remove (SpatialGrid.insert cfg s e p f) e).node x =
      s.node x) := by
  cases hres : (if f = -1 then s.faction e else some f) with
  | none =>
    rw [insert_eq_noresolve hres, remove_noop_of_notIndexed hni]
    exact ⟨fun _ _ => rfl, fun _ _ => rfl⟩
  | some ef =>
    by_cases hval : ef < 0 ∨ MAX_FACTIONS ≤ ef
    · rw [insert_eq_invalid hres hval, remove_noop_of_notIndexed hni]
      exact ⟨fun _ _ => rfl, fun _ _ => rfl⟩
    · rw [insert_eq_core hres hval]
      obtain ⟨hci0, hciU⟩ := getCellIndex_bounds cfg hcfg p
      have hde := WF_head_facts w hni ef (getCellIndex cfg p)
      obtain ⟨iC, iE, iU, iP, _, _, _, _, _⟩ := insertCore_fields cfg s e p ef hde
      rw [remove_eq_some iE]
      rw [if_neg (by push_neg; constructor <;> simp <;> omega),
        if_neg (by push_neg; constructor <;> simp <;> omega)]
      cases hh : s.cells ef (getCellIndex cfg p) with
      | none =>
        rw [hh] at iU
        have hB : ∀ pv, (SpatialNode.mk none none (getCellIndex cfg p) ef).prev = some pv →
            pv ≠ e ∧ ((insertCore cfg s e p ef).node pv).isSome := by
          intro pv hpv; cases hpv
        have hBx : ∀ nx, (SpatialNode.mk none none (getCellIndex cfg p) ef).next = some nx →
            nx ≠ e ∧ ((insertCore cfg s e p ef).node nx).isSome := by
          intro nx hnx; cases hnx
        obtain ⟨rE, rCnone, _, _, _, rUnch, _, _, _, _, _⟩ :=
          removeCore_fields (insertCore cfg s e p ef) e _ hB hBx
            (by intro pv nx hpv _; cases hpv)
        constructor
        · intro g cj
          rw [rCnone rfl, iC]
          by_cases hb : g = ef ∧ cj = getCellIndex cfg p
          · obtain ⟨rfl, rfl⟩ := hb
            rw [updCells_same]
            exact hh.symm
          · rw [updCells_other _ _ _ _ _ _ hb, updCells_other _ _ _ _ _ _ hb]
        · intro x hx
          rw [rUnch x hx (by simp) (by simp)]
          exact iU x hx (by simp)
      | some hd =>
        rw [hh] at iU iP hde
        obtain ⟨hdne, hdsome⟩ := hde hd rfl
        obtain ⟨nh, hnh⟩ := Option.isSome_iff_exists.1 hdsome
        have hprevnh : nh.prev = none := by
          have hb1 := (w.buckets ef (getCellIndex cfg p)).1
          have hb2 := (w.buckets ef (getCellIndex cfg p)).2
          rw [hh] at hb1
          cases hl : c ef (getCellIndex cfg p) with
          | nil => rw [hl] at hb1; cases hb1
          | cons a t =>
            rw [hl] at hb1 hb2
            injection hb1 with hb1
            obtain ⟨⟨n0, hn0, hp0, _, _, _⟩, _⟩ := hb2
            rw [hb1] at hnh
            rw [hnh] at hn0
            injection hn0 with hn0
            rw [← hn0] at hp0
            exact hp0
        have hB : ∀ pv, (SpatialNode.mk (some hd) none (getCellIndex cfg p) ef).prev =
            some pv → pv ≠ e ∧ ((insertCore cfg s e p ef).node pv).isSome := by
          intro pv hpv; cases hpv
        have hBx : ∀ nx, (SpatialNode.mk (some hd) none (getCellIndex cfg p) ef).next =
            some nx → nx ≠ e ∧ ((insertCore cfg s e p ef).node nx).isSome := by
          intro nx hnx
          injection hnx with hnx
          subst hnx
          exact ⟨hdne, by rw [iP hd nh rfl hnh]; rfl⟩
        obtain ⟨rE, rCnone, _, _, rNext, rUnch, _, _, _, _, _⟩ :=
          removeCore_fields (insertCore cfg s e p ef) e _ hB hBx
            (by intro pv nx hpv _; cases hpv)
        constructor
        · intro g cj
          rw [rCnone rfl, iC]
          by_cases hb : g = ef ∧ cj = getCellIndex cfg p
          · obtain ⟨rfl, rfl⟩ := hb
            rw [updCells_same]
            exact hh.symm
          · rw [updCells_other _ _ _ _ _ _ hb, updCells_other _ _ _ _ _ _ hb]
        · intro x hx
          by_cases hxhd : x = hd
          · subst hxhd
            rw [rNext x { nh with prev := some e } rfl (iP x nh rfl hnh)]
            rw [hnh]
            obtain ⟨n1, n2, n3, n4⟩ := nh
            simp only at hprevnh
            rw [hprevnh]
          · rw [rUnch x hx (by simp) (by simp [Ne.symm hxhd])]
            exact iU x hx (by simp [Ne.symm hxhd])

/-- C4 witness: the round trip applied to entity 0 at (5,5) with
faction 0 in the empty grid. -/
theorem c4_witness :
    (∀ g cj, (SpatialGrid.remove (SpatialGrid.insert cfg0 exEmpty 0 ⟨5, 5⟩ 0) 0).cells g cj =
      exEmpty.cells g cj) ∧
    (∀ x, x ≠ 0 → (SpatialGrid.remove (SpatialGrid.insert cfg0 exEmpty 0 ⟨5, 5⟩ 0) 0).node x =
      exEmpty.node x) :=
  c4_insert_remove_roundtrip cfg0 exEmpty (fun _ _ => []) cfg0_valid WF_exEmpty 0
    (fun n h => by cases h) ⟨5, 5⟩ 0

theorem mem_allFactions {g : ℤ} : g ∈ allFactions ↔ 0 ≤ g ∧ g < MAX_FACTIONS := by
  rw [allFactions, MAX_FACTIONS]
  constructor
  · intro h
    simp only [List.mem_cons, List.not_mem_nil, or_false] at h
    rcases h with rfl | rfl | rfl | rfl | rfl | rfl | rfl | rfl <;> norm_num
  · rintro ⟨h1, h2⟩
    interval_cases g <;> simp

theorem nearestStep_some {s : State} {pos : Vec2} {rsq : ℚ} {b : Option ℕ × ℚ} {a : ℕ}
    {p : Vec2} (hp : s.position a = some p) :
    nearestStep s pos rsq b a =
      if distSq pos p ≤ rsq ∧ distSq pos p < b.2 then (some a, distSq pos p) else b := by
  unfold nearestStep
  rw [hp]

theorem nearestStep_nopos {s : State} {pos : Vec2} {rsq : ℚ} {b : Option ℕ × ℚ} {a : ℕ}
    (hp : s.position a = none) : nearestStep s pos rsq b a = b := by
  unfold nearestStep
  rw [hp]

theorem mem_relevantFactions {cfg : Cfg} {s : State} {f : ℤ} {sf : Bool} {g : ℤ} :
    g ∈ relevantFactions cfg s f sf ↔
      (0 ≤ g ∧ g < MAX_FACTIONS) ∧ ¬factionIsEmpty cfg s g ∧ modeOK f sf g := by
  unfold relevantFactions modeOK
  by_cases hf : 0 ≤ f ∧ f < MAX_FACTIONS
  · rw [if_pos hf, if_pos hf]
    cases sf with
    | true =>
      rw [if_pos rfl, if_pos rfl]
      by_cases hemp : factionIsEmpty cfg s f
      · rw [if_pos hemp]
        simp only [List.not_mem_nil, false_iff]
        rintro ⟨_, hne, rfl⟩
        exact hne hemp
      · rw [if_neg hemp]
        simp only [List.mem_singleton]
        constructor
        · rintro rfl
          exact ⟨⟨hf.1, hf.2⟩, hemp, rfl⟩
        · rintro ⟨_, _, rfl⟩
          rfl
    | false =>
      rw [if_neg (by simp), if_neg (by simp)]
      simp only [List.mem_filter, Bool.and_eq_true, decide_eq_true_eq,
        Bool.not_eq_true', decide_eq_false_iff_not, mem_allFactions]
      tauto
  · rw [if_neg hf, if_neg hf]
    simp only [List.mem_filter, Bool.not_eq_true', decide_eq_false_iff_not, mem_allFactions]
    tauto

theorem mem_radiusCandidates {cfg : Cfg} {s : State} {fuel : ℕ} {pos : Vec2} {r : ℚ}
    {f : ℤ} {sf : Bool} {e : ℕ} :
    e ∈ radiusCandidates cfg s fuel pos r f sf ↔
      ∃ g ∈ relevantFactions cfg s f sf,
        ∃ ci ∈ visitedIdx cfg (cellX cfg (pos.x - r)) (cellY cfg (pos.y - r))
          (cellX cfg (pos.x + r)) (cellY cfg (pos.y + r)),
          e ∈ chainWalk s fuel (s.cells g ci) := by
  unfold radiusCandidates factionQueryCells
  simp only [mem_lcat]

theorem WF_cells_nonempty {cfg : Cfg} {s : State} {c : ℤ → ℤ → List ℕ} (w : WF cfg s c)
    {g ci : ℤ} {e : ℕ} (he : e ∈ c g ci) : ∃ hd, s.cells g ci = some hd := by
  cases hl : c g ci with
  | nil => rw [hl] at he; cases he
  | cons a t =>
    refine ⟨a, ?_⟩
    rw [(w.buckets g ci).1, hl]
    rfl

theorem WF_not_isEmpty {cfg : Cfg} {s : State} {c : ℤ → ℤ → List ℕ} (w : WF cfg s c)
    {g ci : ℤ} {e : ℕ} (he : e ∈ c g ci) : ¬factionIsEmpty cfg s g := by
  intro hemp
  obtain ⟨hd, hhd⟩ := WF_cells_nonempty w he
  have hrg := w.ranges g ci (by intro h0; rw [h0] at he; cases he)
  have hci : ci ∈ cellRange 0 (cfg.cols * cfg.rows - 1) := mem_cellRange.2 (by omega)
  rw [hemp ci hci] at hhd
  cases hhd

theorem dist_coord_bounds {pos p : Vec2} {r : ℚ} (hr : 0 ≤ r)
    (hd : distSq pos p ≤ r ^ 2) :
    pos.x - r ≤ p.x ∧ p.x ≤ pos.x + r ∧ pos.y - r ≤ p.y ∧ p.y ≤ pos.y + r := by
  unfold distSq at hd
  refine ⟨by nlinarith [sq_nonneg (p.y - pos.y), sq_nonneg (p.x - pos.x + r)],
    by nlinarith [sq_nonneg (p.y - pos.y), sq_nonneg (p.x - pos.x - r)],
    by nlinarith [sq_nonneg (p.x - pos.x), sq_nonneg (p.y - pos.y + r)],
    by nlinarith [sq_nonneg (p.x - pos.x), sq_nonneg (p.y - pos.y - r)]⟩

/-- Exactness of `QueryRadius` on a well-formed, position-consistent
grid: the callback list contains exactly the indexed entities whose
faction passes the filter and whose Position lies within squared
distance `r²`. -/
theorem mem_queryRadiusList_iff {cfg : Cfg} {s : State} {c : ℤ → ℤ → List ℕ} {fuel : ℕ}
    (hcfg : cfg.Valid) (w : WF cfg s c) (hpc : PosConsistent cfg s)
    (hfuel : ∀ g ci, (c g ci).length ≤ fuel)
    (pos : Vec2) {r : ℚ} (hr : 0 ≤ r) (f : ℤ) (sf : Bool) (e : ℕ) :
    e ∈ queryRadiusList cfg s fuel pos r f sf ↔
      ∃ g ci p, indexedAt s e g ci ∧ s.position e = some p ∧
        distSq pos p ≤ r ^ 2 ∧ modeOK f sf g := by
  unfold queryRadiusList
  rw [List.mem_filter]
  constructor
  · rintro ⟨hcand, hfine⟩
    obtain ⟨p, hp⟩ : ∃ p, s.position e = some p := by
      cases hp : s.position e with
      | none => rw [hp] at hfine; cases hfine
      | some p => exact ⟨p, rfl⟩
    rw [hp] at hfine
    have hdist : distSq pos p ≤ r ^ 2 := by
      simpa using hfine
    obtain ⟨g, hg, ci, _, hwalk⟩ := mem_radiusCandidates.1 hcand
    have hmem : e ∈ c g ci := by
      refine chainWalk_subset (w.buckets g ci).2 fuel ?_
      rw [← (w.buckets g ci).1]
      exact hwalk
    exact ⟨g, ci, p, w.indexed_of_mem hmem, hp, hdist,
      (mem_relevantFactions.1 hg).2.2⟩
  · rintro ⟨g, ci, p, hidx, hp, hdist, hmode⟩
    have hmem : e ∈ c g ci := w.mem_of_indexed e g ci hidx
    have hrg := w.ranges g ci (by intro h0; rw [h0] at hmem; cases hmem)
    obtain ⟨n, hn, hnf, hnc, hne⟩ := hidx
    have hcix : ci = getCellIndex cfg p := by
      rw [← hnc]
      exact hpc e n p hn (by rw [hnc]; exact hne) hp
    obtain ⟨hb1, hb2, hb3, hb4⟩ := dist_coord_bounds hr hdist
    have hcs : (1 : ℤ) ≤ cfg.cellSize := hcfg.2.2
    have hxlo := cellX_mono cfg hcs hb1
    have hxhi := cellX_mono cfg hcs hb2
    have hylo := cellY_mono cfg hcs hb3
    have hyhi := cellY_mono cfg hcs hb4
    refine ⟨mem_radiusCandidates.2 ⟨g, ?_, ci, ?_, ?_⟩, ?_⟩
    · exact mem_relevantFactions.2 ⟨⟨hrg.1, hrg.2.1⟩, WF_not_isEmpty w hmem, hmode⟩
    · refine mem_visitedIdx.2 ⟨cellX cfg p.x, cellY cfg p.y, hxlo, hxhi, hylo, hyhi, ?_⟩
      rw [hcix]
      rfl
    · have hwalk : chainWalk s fuel (s.cells g ci) = c g ci := by
        rw [(w.buckets g ci).1]
        exact chainWalk_of_chainOK (w.buckets g ci).2 (hfuel g ci)
      rw [hwalk]
      exact hmem
    · rw [hp]
      simpa using hdist

theorem nearestStep_good {s : State} {pos : Vec2} {rsq : ℚ} {cand : List ℕ}
    {b : Option ℕ × ℚ} {a : ℕ} (hg : nearGood s pos rsq cand b) (ha : a ∈ cand) :
    nearGood s pos rsq cand (nearestStep s pos rsq b a) := by
  cases hp : s.position a with
  | none =>
    rw [nearestStep_nopos hp]
    exact hg
  | some p =>
    rw [nearestStep_some hp]
    by_cases hc : distSq pos p ≤ rsq ∧ distSq pos p < b.2
    · rw [if_pos hc]
      rcases hg with ⟨_, hb2⟩ | ⟨e', p', _, _, _, hlt, _⟩
      · exact Or.inr ⟨a, p, rfl, hp, rfl, by rw [hb2] at hc; exact hc.2, ha⟩
      · exact Or.inr ⟨a, p, rfl, hp, rfl, lt_trans hc.2 hlt, ha⟩
    · rw [if_neg hc]
      exact hg

theorem nearestFold_good {s : State} {pos : Vec2} {rsq : ℚ} {cand : List ℕ}
    {l : List ℕ} (hl : ∀ a ∈ l, a ∈ cand) {b : Option ℕ × ℚ}
    (hg : nearGood s pos rsq cand b) :
    nearGood s pos rsq cand (l.foldl (nearestStep s pos rsq) b) := by
  induction l generalizing b with
  | nil => exact hg
  | cons a t ih =>
    exact ih (fun x hx => hl x (List.mem_cons_of_mem a hx))
      (nearestStep_good hg (hl a (List.mem_cons_self a t)))

theorem nearestFold_isSome {s : State} {pos : Vec2} {rsq : ℚ} {l : List ℕ}
    {b : Option ℕ × ℚ} (hb : b.1.isSome) :
    (l.foldl (nearestStep s pos rsq) b).1.isSome := by
  induction l generalizing b with
  | nil => exact hb
  | cons a t ih =>
    refine ih ?_
    cases hp : s.position a with
    | none =>
      rw [nearestStep_nopos hp]
      exact hb
    | some p =>
      rw [nearestStep_some hp]
      by_cases hc : distSq pos p ≤ rsq ∧ distSq pos p < b.2
      · rw [if_pos hc]; rfl
      · rw [if_neg hc]; exact hb

theorem nearestFold_complete {s : State} {pos : Vec2} {rsq : ℚ} {cand : List ℕ}
    {l : List ℕ} (hl : ∀ a ∈ l, a ∈ cand) {b : Option ℕ × ℚ}
    (hg : nearGood s pos rsq cand b) {a : ℕ} (ha : a ∈ l) {p : Vec2}
    (hp : s.position a = some p) (hd : distSq pos p < rsq) :
    (l.foldl (nearestStep s pos rsq) b).1.isSome := by
  induction l generalizing b with
  | nil => cases ha
  | cons x t ih =>
    rcases List.mem_cons.1 ha with rfl | hat
    · rcases hg with ⟨hb1, hb2⟩ | ⟨e', p', hb1, _, _, _, _⟩
      · show (List.foldl (nearestStep s pos rsq) (nearestStep s pos rsq b a) t).1.isSome = true
        refine nearestFold_isSome ?_
        rw [nearestStep_some hp, if_pos ⟨le_of_lt hd, by rw [hb2]; exact hd⟩]
        rfl
      · show (List.foldl (nearestStep s pos rsq) (nearestStep s pos rsq b a) t).1.isSome = true
        refine nearestFold_isSome ?_
        rw [nearestStep_some hp]
        by_cases hc : distSq pos p ≤ rsq ∧ distSq pos p < b.2
        · rw [if_pos hc]; rfl
        · rw [if_neg hc, hb1]; rfl
    · exact ih (fun y hy => hl y (List.mem_cons_of_mem x hy))
        (nearestStep_good hg (hl x (List.mem_cons_self x t))) hat

theorem findNearest_some {cfg : Cfg} {s : State} {fuel : ℕ} {pos : Vec2} {r : ℚ}
    {f : ℤ} {sf : Bool} {e : ℕ} (h : findNearest cfg s fuel pos r f sf = some e) :
    ∃ p, s.position e = some p ∧ distSq pos p < r ^ 2 ∧
      e ∈ radiusCandidates cfg s fuel pos r f sf := by
  unfold findNearest at h
  have hg : nearGood s pos (r ^ 2) (radiusCandidates cfg s fuel pos r f sf)
      ((radiusCandidates cfg s fuel pos r f sf).foldl (nearestStep s pos (r ^ 2))
        (none, r ^ 2)) :=
    nearestFold_good (fun a ha => ha) (Or.inl ⟨rfl, rfl⟩)
  rcases hg with ⟨hb1, _⟩ | ⟨e', p', hb1, hp', hd', hlt', hmem'⟩
  · rw [h] at hb1; cases hb1
  · rw [h] at hb1
    injection hb1 with hb1
    subst hb1
    exact ⟨p', hp', by rw [hd']; exact hlt', hmem'⟩

theorem findNearest_none {cfg : Cfg} {s : State} {fuel : ℕ} {pos : Vec2} {r : ℚ}
    {f : ℤ} {sf : Bool} (h : findNearest cfg s fuel pos r f sf = none) :
    ∀ e p, e ∈ radiusCandidates cfg s fuel pos r f sf → s.position e = some p →
      ¬distSq pos p < r ^ 2 := by
  intro e p hmem hp hd
  have hinit : nearGood s pos (r ^ 2) (radiusCandidates cfg s fuel pos r f sf)
      ((none : Option ℕ), r ^ 2) := Or.inl ⟨rfl, rfl⟩
  have := nearestFold_complete (fun a ha => ha) hinit hmem hp hd
  unfold findNearest at h
  rw [h] at this
  cases this

/-- C1: on a well-formed, position-consistent grid, `QueryRadius` and
`FindNearest` obey the three faction-filter modes, captured by
`modeOK`: a filter faction `< 0` considers the indexed entities of all
factions, a faction in `[0, MAX_FACTIONS)` with `same_faction = true`
exactly that faction's indexed entities, and with
`same_faction = false` exactly every other faction's indexed entities —
in each case exactly those whose Position lies within the radius
(`FindNearest` keeps only candidates strictly within it). -/
theorem c1_faction_filter_modes {cfg : Cfg} {s : State} {c : ℤ → ℤ → List ℕ} {fuel : ℕ}
    (hcfg : cfg.Valid) (w : WF cfg s c) (hpc : PosConsistent cfg s)
    (hfuel : ∀ g ci, (c g ci).length ≤ fuel)
    (pos : Vec2) {r : ℚ} (hr : 0 ≤ r) (f : ℤ) (sf : Bool) :
    (∀ e, e ∈ queryRadiusList cfg s fuel pos r f sf ↔
      ∃ g ci p, indexedAt s e g ci ∧ s.position e = some p ∧
        distSq pos p ≤ r ^ 2 ∧ modeOK f sf g) ∧
    (∀ e, findNearest cfg s fuel pos r f sf = some e →
      ∃ g ci p, indexedAt s e g ci ∧ s.position e = some p ∧
        distSq pos p < r ^ 2 ∧ modeOK f sf g) ∧
    (findNearest cfg s fuel pos r f sf = none →
      ∀ e g ci p, indexedAt s e g ci → s.position e = some p → modeOK f sf g →
        ¬distSq pos p < r ^ 2) := by
  have hiff := fun e => mem_queryRadiusList_iff hcfg w hpc hfuel pos hr f sf e
  refine ⟨hiff, ?_, ?_⟩
  · intro e h
    obtain ⟨p, hp, hd, hcand⟩ := findNearest_some h
    obtain ⟨g, hg, ci, _, hwalk⟩ := mem_radiusCandidates.1 hcand
    have hmem : e ∈ c g ci := by
      refine chainWalk_subset (w.buckets g ci).2 fuel ?_
      rw [← (w.buckets g ci).1]
      exact hwalk
    exact ⟨g, ci, p, w.indexed_of_mem hmem, hp, hd, (mem_relevantFactions.1 hg).2.2⟩
  · intro hnone e g ci p hidx hp hmode hd
    have hq : e ∈ queryRadiusList cfg s fuel pos r f sf :=
      (hiff e).2 ⟨g, ci, p, hidx, hp, le_of_lt hd, hmode⟩
    have hcand := (List.mem_filter.1 hq).1
    exact findNearest_none hnone e p hcand hp hd

/-- C2: an indexed entity at exactly distance `r` from the query point
is reported by `QueryRadius(pos, r)` (inclusive comparison) but is
never the result of `FindNearest(pos, r)` under any faction filter
(strict comparison against the running best initialised to `r²`). -/
theorem c2_radius_boundary {cfg : Cfg} {s : State} {c : ℤ → ℤ → List ℕ} {fuel : ℕ}
    (hcfg : cfg.Valid) (w : WF cfg s c) (hpc : PosConsistent cfg s)
    (hfuel : ∀ g ci, (c g ci).length ≤ fuel)
    (pos : Vec2) {r : ℚ} (hr : 0 ≤ r) (f : ℤ) (sf : Bool) (e : ℕ) (g ci : ℤ) (p : Vec2)
    (hidx : indexedAt s e g ci) (hp : s.position e = some p)
    (hd : distSq pos p = r ^ 2) (hmode : modeOK f sf g) :
    e ∈ queryRadiusList cfg s fuel pos r f sf ∧
    ∀ (f' : ℤ) (sf' : Bool), findNearest cfg s fuel pos r f' sf' ≠ some e := by
  constructor
  · exact (mem_queryRadiusList_iff hcfg w hpc hfuel pos hr f sf e).2
      ⟨g, ci, p, hidx, hp, le_of_eq hd, hmode⟩
  · intro f' sf' hEq
    obtain ⟨p', hp', hd', _⟩ := findNearest_some hEq
    rw [hp] at hp'
    injection hp' with hp'
    rw [← hp', hd] at hd'
    exact lt_irrefl _ hd'

theorem WF_exState : WF cfg0 exState exContent := by
  refine ⟨?_, ?_, ?_, ?_⟩
  · intro g ci
    by_cases h1 : g = 0 ∧ ci = 0
    · obtain ⟨rfl, rfl⟩ := h1
      exact ⟨rfl, ⟨⟨none, none, 0, 0⟩, rfl, rfl, rfl, rfl, rfl⟩, trivial⟩
    · by_cases h2 : g = 1 ∧ ci = 0
      · obtain ⟨rfl, rfl⟩ := h2
        exact ⟨rfl, ⟨⟨none, none, 0, 1⟩, rfl, rfl, rfl, rfl, rfl⟩, trivial⟩
      · by_cases h3 : g = 0 ∧ ci = 1
        · obtain ⟨rfl, rfl⟩ := h3
          exact ⟨rfl, ⟨⟨none, none, 1, 0⟩, rfl, rfl, rfl, rfl, rfl⟩, trivial⟩
        · have hc : exContent g ci = [] := by
            simp only [exContent, if_neg h1, if_neg h2, if_neg h3]
          have hcel : exState.cells g ci = none := by
            simp only [exState, if_neg h1, if_neg h2, if_neg h3]
          rw [hc]
          exact ⟨by rw [hcel]; rfl, trivial⟩
  · intro e g ci hi
    rcases hi with ⟨n, hn, hfc, hcl, hne⟩
    by_cases he0 : e = 0
    · subst he0
      have hn' : exState.node 0 = some ⟨none, none, 0, 0⟩ := rfl
      rw [hn'] at hn
      injection hn with hn
      rw [← hn] at hfc hcl
      simp only at hfc hcl
      rw [← hfc, ← hcl]
      show (0 : ℕ) ∈ exContent 0 0
      simp [exContent]
    · by_cases he1 : e = 1
      · subst he1
        have hn' : exState.node 1 = some ⟨none, none, 0, 1⟩ := rfl
        rw [hn'] at hn
        injection hn with hn
        rw [← hn] at hfc hcl
        simp only at hfc hcl
        rw [← hfc, ← hcl]
        show (1 : ℕ) ∈ exContent 1 0
        simp [exContent]
      · by_cases he2 : e = 2
        · subst he2
          have hn' : exState.node 2 = some ⟨none, none, 1, 0⟩ := rfl
          rw [hn'] at hn
          injection hn with hn
          rw [← hn] at hfc hcl
          simp only at hfc hcl
          rw [← hfc, ← hcl]
          show (2 : ℕ) ∈ exContent 0 1
          simp [exContent]
        · have hn' : exState.node e = none := by
            simp only [exState, if_neg he0, if_neg he1, if_neg he2]
          rw [hn'] at hn
          cases hn
  · intro g ci hne
    by_cases h1 : g = 0 ∧ ci = 0
    · obtain ⟨rfl, rfl⟩ := h1
      norm_num [cfg0, MAX_FACTIONS]
    · by_cases h2 : g = 1 ∧ ci = 0
      · obtain ⟨rfl, rfl⟩ := h2
        norm_num [cfg0, MAX_FACTIONS]
      · by_cases h3 : g = 0 ∧ ci = 1
        · obtain ⟨rfl, rfl⟩ := h3
          norm_num [cfg0, MAX_FACTIONS]
        · exfalso
          exact hne (by simp only [exContent, if_neg h1, if_neg h2, if_neg h3])
  · intro g ci
    by_cases h1 : g = 0 ∧ ci = 0
    · obtain ⟨rfl, rfl⟩ := h1
      simp [exContent]
    · by_cases h2 : g = 1 ∧ ci = 0
      · obtain ⟨rfl, rfl⟩ := h2
        simp [exContent, h1]
      · by_cases h3 : g = 0 ∧ ci = 1
        · obtain ⟨rfl, rfl⟩ := h3
          simp [exContent, h1, h2]
        · simp only [exContent, if_neg h1, if_neg h2, if_neg h3]
          exact List.nodup_nil

theorem gci0_55 : getCellIndex cfg0 ⟨5, 5⟩ = 0 := by
  norm_num [getCellIndex, cellX, cellY, clampZ, truncQ, cfg0, min_def, max_def]

theorem gci0_65 : getCellIndex cfg0 ⟨6, 5⟩ = 0 := by
  norm_num [getCellIndex, cellX, cellY, clampZ, truncQ, cfg0, min_def, max_def]

theorem gci0_155 : getCellIndex cfg0 ⟨15, 5⟩ = 1 := by
  norm_num [getCellIndex, cellX, cellY, clampZ, truncQ, cfg0, min_def, max_def]

theorem PC_exState : PosConsistent cfg0 exState := by
  intro e n p hn hne hp
  by_cases he0 : e = 0
  · subst he0
    have hn' : exState.node 0 = some ⟨none, none, 0, 0⟩ := rfl
    rw [hn'] at hn
    injection hn with hn
    have hp' : exState.position 0 = some ⟨5, 5⟩ := rfl
    rw [hp'] at hp
    injection hp with hp
    rw [← hn, ← hp, gci0_55]
  · by_cases he1 : e = 1
    · subst he1
      have hn' : exState.node 1 = some ⟨none, none, 0, 1⟩ := rfl
      rw [hn'] at hn
      injection hn with hn
      have hp' : exState.position 1 = some ⟨6, 5⟩ := rfl
      rw [hp'] at hp
      injection hp with hp
      rw [← hn, ← hp, gci0_65]
    · by_cases he2 : e = 2
      · subst he2
        have hn' : exState.node 2 = some ⟨none, none, 1, 0⟩ := rfl
        rw [hn'] at hn
        injection hn with hn
        have hp' : exState.position 2 = some ⟨15, 5⟩ := rfl
        rw [hp'] at hp
        injection hp with hp
        rw [← hn, ← hp, gci0_155]
      · have hn' : exState.node e = none := by
          simp only [exState, if_neg he0, if_neg he1, if_neg he2]
        rw [hn'] at hn
        cases hn

theorem exContent_fuel : ∀ g ci, (exContent g ci).length ≤ 1 := by
  intro g ci
  by_cases h1 : g = 0 ∧ ci = 0
  · simp [exContent, h1]
  · by_cases h2 : g = 1 ∧ ci = 0
    · simp [exContent, h1, h2]
    · by_cases h3 : g = 0 ∧ ci = 1
      · simp [exContent, h1, h2, h3]
      · simp [exContent, h1, h2, h3]

/-- C1 witness: on the populated example grid, the unfiltered query at
(5,5) with radius 10 reports entity 0, and the same-faction query for
faction 1 reports entity 1. -/
theorem c1_witness :
    0 ∈ queryRadiusList cfg0 exState 1 ⟨5, 5⟩ 10 (-1) false ∧
    1 ∈ queryRadiusList cfg0 exState 1 ⟨5, 5⟩ 10 1 true := by
  constructor
  · exact ((c1_faction_filter_modes cfg0_valid WF_exState PC_exState exContent_fuel
      ⟨5, 5⟩ (by norm_num) (-1) false).1 0).2
      ⟨0, 0, ⟨5, 5⟩, ⟨⟨none, none, 0, 0⟩, rfl, rfl, rfl, by norm_num⟩, rfl,
        by norm_num [distSq], by norm_num [modeOK]⟩
  · exact ((c1_faction_filter_modes cfg0_valid WF_exState PC_exState exContent_fuel
      ⟨5, 5⟩ (by norm_num) 1 true).1 1).2
      ⟨1, 0, ⟨6, 5⟩, ⟨⟨none, none, 0, 1⟩, rfl, rfl, rfl, by norm_num⟩, rfl,
        by norm_num [distSq], by norm_num [modeOK, MAX_FACTIONS]⟩

/-- C2 witness: entity 2 sits at exactly distance 10 from (5,5); the
radius-10 query reports it while `FindNearest` never returns it. -/
theorem c2_witness :
    2 ∈ queryRadiusList cfg0 exState 1 ⟨5, 5⟩ 10 (-1) false ∧
    ∀ (f' : ℤ) (sf' : Bool), findNearest cfg0 exState 1 ⟨5, 5⟩ 10 f' sf' ≠ some 2 :=
  c2_radius_boundary cfg0_valid WF_exState PC_exState exContent_fuel
    ⟨5, 5⟩ (by norm_num) (-1) false 2 0 1 ⟨15, 5⟩
    ⟨⟨none, none, 1, 0⟩, rfl, rfl, rfl, by norm_num⟩ rfl
    (by norm_num [distSq]) (by norm_num [modeOK])

/-- C5 counterexample: a query whose filter faction is 8 (outside
`[0, MAX_FACTIONS)`) is not a no-op — it scans all factions and reports
entity 0 — and `Insert` with faction `-1` (also outside the range) is
not a no-op either: it reads the entity's Faction attribute and links
the entity into the grid. -/
theorem c5_counterexample :
    0 ∈ queryRadiusList cfg0 exState 1 ⟨5, 5⟩ 10 8 true ∧
    (SpatialGrid.insert cfg0 sIns 0 ⟨5, 5⟩ (-1)).cells 0 0 = some 0 ∧
    sIns.cells 0 0 = none := by
  refine ⟨?_, ?_, rfl⟩
  · exact (mem_queryRadiusList_iff cfg0_valid WF_exState PC_exState exContent_fuel
      ⟨5, 5⟩ (by norm_num) 8 true 0).2
      ⟨0, 0, ⟨5, 5⟩, ⟨⟨none, none, 0, 0⟩, rfl, rfl, rfl, by norm_num⟩, rfl,
        by norm_num [distSq], by norm_num [modeOK, MAX_FACTIONS]⟩
  · norm_num [SpatialGrid.insert, insertCore, gridInsertRaw, setNode, updFn, updCells,
      sIns, exEmpty, getCellIndex, cellX, cellY, clampZ, truncQ, cfg0, MAX_FACTIONS,
      min_def, max_def]

/-- C5 (amended): for a faction id outside `[0, MAX_FACTIONS)`,
`Insert` is a no-op only when the id is not the sentinel `-1`, or when
it is `-1` and the entity carries no Faction attribute (`-1` means
"read the attribute"); queries with such a filter id are not no-ops:
they behave exactly like the scan-all-factions query `(-1, false)`. -/
theorem c5_out_of_range_faction {cfg : Cfg} {s : State} (fuel : ℕ) (pos : Vec2) (r : ℚ)
    (f : ℤ) (sf : Bool) (hf : ¬(0 ≤ f ∧ f < MAX_FACTIONS)) :
    (∀ (e : ℕ) (p : Vec2), f ≠ -1 → SpatialGrid.insert cfg s e p f = s) ∧
    (∀ (e : ℕ) (p : Vec2), s.faction e = none → SpatialGrid.insert cfg s e p f = s) ∧
    queryRadiusList cfg s fuel pos r f sf = queryRadiusList cfg s fuel pos r (-1) false ∧
    findNearest cfg s fuel pos r f sf = findNearest cfg s fuel pos r (-1) false := by
  have hv : f < 0 ∨ MAX_FACTIONS ≤ f := by
    rw [show MAX_FACTIONS = 8 from rfl] at hf ⊢
    omega
  have hrf : relevantFactions cfg s f sf = relevantFactions cfg s (-1) false := by
    unfold relevantFactions
    rw [if_neg hf, if_neg (by norm_num [MAX_FACTIONS])]
  have hrc : radiusCandidates cfg s fuel pos r f sf =
      radiusCandidates cfg s fuel pos r (-1) false := by
    unfold radiusCandidates
    rw [hrf]
  refine ⟨?_, ?_, ?_, ?_⟩
  · intro e p hne
    exact insert_eq_invalid (by rw [if_neg hne]) hv
  · intro e p hfe
    by_cases hne : f = -1
    · subst hne
      exact insert_eq_noresolve (by rw [if_pos rfl]; exact hfe)
    · exact insert_eq_invalid (by rw [if_neg hne]) hv
  · unfold queryRadiusList
    rw [hrc]
  · unfold findNearest
    rw [hrc]

/-- C5 witness: on the populated example grid, `Insert` with faction 8
leaves the state unchanged and the faction-8 query coincides with the
scan-all query. -/
theorem c5_witness :
    SpatialGrid.insert cfg0 exState 5 ⟨5, 5⟩ 8 = exState ∧
    queryRadiusList cfg0 exState 1 ⟨5, 5⟩ 10 8 true =
      queryRadiusList cfg0 exState 1 ⟨5, 5⟩ 10 (-1) false := by
  refine ⟨?_, ?_⟩
  · exact (c5_out_of_range_faction 1 ⟨5, 5⟩ 10 8 true
      (by norm_num [MAX_FACTIONS])).1 5 ⟨5, 5⟩ (by norm_num)
  · exact (c5_out_of_range_faction 1 ⟨5, 5⟩ 10 8 true
      (by norm_num [MAX_FACTIONS])).2.2.1

/-- C6 counterexample: with the entity starting exactly at its target
and moving away, the dot product of the vector to the target with the
velocity is zero — non-positive — yet one movement step does not zero
the velocity (the code's overshoot test is strictly negative, not
non-positive). -/
theorem c6_counterexample :
    dot (vsub (⟨0, 0⟩ : Vec2) (⟨0, 0⟩ : Vec2)) ⟨1, 0⟩ = 0 ∧
    (processMovement ⟨⟨1, 0⟩, ⟨0, 0⟩, 1⟩ ⟨0, 0⟩ 1).1.velocity = ⟨1, 0⟩ := by
  constructor
  · norm_num [dot, vsub]
  · norm_num [processMovement, Vec2.isZero, vadd, scale, vsub, dot, distSq, sqrtLT]

/-- C6 (amended): one `processMovement` step skips zero-velocity
entities, reporting "not moved"; otherwise it advances the position by
`velocity × dt` and reports "moved", and it zeroes the velocity and
snaps the target to the new position exactly when the new position is
strictly within 0.5 world units of the target or the dot product of the
vector from the pre-step position to the target with the velocity is
strictly negative (not merely non-positive). -/
theorem c6_movement_arrival (m : Movement) (p : Vec2) (dt : ℚ) :
    (m.velocity.isZero → processMovement m p dt = (m, p, false)) ∧
    (¬m.velocity.isZero → ∀ p', p' = vadd p (scale m.velocity dt) →
      (processMovement m p dt).2.1 = p' ∧
      (processMovement m p dt).2.2 = true ∧
      (distSq p' m.target < (1 / 2) ^ 2 ∨ dot (vsub m.target p) m.velocity < 0 →
        (processMovement m p dt).1.velocity = ⟨0, 0⟩ ∧
        (processMovement m p dt).1.target = p') ∧
      (¬distSq p' m.target < (1 / 2) ^ 2 → ¬dot (vsub m.target p) m.velocity < 0 →
        (processMovement m p dt).1 = m)) := by
  have hiff : ∀ d : ℚ, sqrtLT d (1 / 2) ↔ d < (1 / 2) ^ 2 :=
    fun d => ⟨fun h => h.2, fun h => ⟨by norm_num, h⟩⟩
  constructor
  · intro hz
    unfold processMovement
    rw [if_pos hz]
  · intro hz p' hp'
    subst hp'
    have hpm : processMovement m p dt =
        (if sqrtLT (distSq (vadd p (scale m.velocity dt)) m.target) (1 / 2) ∨
            dot (vsub m.target p) m.velocity < 0 then
          ({ m with velocity := ⟨0, 0⟩, target := vadd p (scale m.velocity dt) },
            vadd p (scale m.velocity dt), true)
        else (m, vadd p (scale m.velocity dt), true)) := by
      unfold processMovement
      rw [if_neg hz]
    by_cases hc : sqrtLT (distSq (vadd p (scale m.velocity dt)) m.target) (1 / 2) ∨
        dot (vsub m.target p) m.velocity < 0
    · rw [hpm, if_pos hc]
      refine ⟨rfl, rfl, fun _ => ⟨rfl, rfl⟩, fun h1 h2 => absurd hc ?_⟩
      rintro (hs | hd)
      · exact h1 ((hiff _).1 hs)
      · exact h2 hd
    · rw [hpm, if_neg hc]
      refine ⟨rfl, rfl, fun h => absurd ?_ hc, fun h1 h2 => rfl⟩
      exact h.elim (fun hd => Or.inl ((hiff _).2 hd)) Or.inr

/-- C6 witness: a unit at the origin with velocity (3,4) far from its
target moves to (3,4); a unit with zero velocity is untouched and
reported as not moved. -/
theorem c6_witness :
    (processMovement ⟨⟨3, 4⟩, ⟨100, 100⟩, 5⟩ ⟨0, 0⟩ 1).2.1 = ⟨3, 4⟩ ∧
    processMovement ⟨⟨0, 0⟩, ⟨7, 7⟩, 5⟩ ⟨1, 2⟩ 1 = (⟨⟨0, 0⟩, ⟨7, 7⟩, 5⟩, ⟨1, 2⟩, false) := by
  constructor
  · exact ((c6_movement_arrival ⟨⟨3, 4⟩, ⟨100, 100⟩, 5⟩ ⟨0, 0⟩ 1).2
      (by norm_num [Vec2.isZero]) ⟨3, 4⟩ (by norm_num [vadd, scale])).1
  · exact (c6_movement_arrival ⟨⟨0, 0⟩, ⟨7, 7⟩, 5⟩ ⟨1, 2⟩ 1).1 ⟨rfl, rfl⟩

/-- C7: when a melee attack lands (cooldown elapsed after adding `dt`,
target alive with Health and Position, within the weapon's range), the
target's current health drops by exactly `max 0 (damage − shield)` —
max health and shield are untouched — and the attacker's timer is reset
to 0. -/
theorem c7_melee_shielded_damage {s : State} {dt : ℚ} {e t : ℕ} {dd : DirectDamage}
    {pos tp : Vec2} {th : Health}
    (hdd : s.directDamage e = some dd)
    (hat : s.attackTarget e = some (some t))
    (hpos : s.position e = some pos)
    (hcd : dd.timer + dt ≥ dd.cooldown)
    (halive : s.alive t = true)
    (hth : s.health t = some th)
    (htp : s.position t = some tp)
    (hrange : sqrtLE (distSq pos tp) dd.range) :
    (meleeStep s dt e).health t =
      some { th with current := th.current - max 0 (dd.damage - th.shield) } ∧
    (meleeStep s dt e).directDamage e = some { dd with timer := 0 } := by
  simp only [meleeStep, hdd, hat, hpos]
  rw [if_pos hcd]
  simp only [halive, if_true, hth, htp]
  rw [if_pos hrange]
  constructor
  · simp [updFn, Health.damage]
  · simp [updFn]

/-- C7 witness: the spec's shield scenario — damage 10 against shield 4
applies 6 (30 → 24 health) and resets the attacker's timer. -/
theorem c7_witness :
    (meleeStep sMelee 1 0).health 1 = some ⟨24, 30, 4⟩ ∧
    (meleeStep sMelee 1 0).directDamage 0 = some ⟨10, 2, 1, 0⟩ := by
  obtain ⟨h1, h2⟩ := @c7_melee_shielded_damage sMelee 1 0 1 ⟨10, 2, 1, 1⟩ ⟨0, 0⟩ ⟨1, 0⟩
    ⟨30, 30, 4⟩ rfl rfl rfl (by norm_num) rfl rfl rfl (by norm_num [sqrtLE, distSq])
  constructor
  · rw [h1]
    norm_num
  · rw [h2]

/-- C8: a gameplay tick with `dt = 0` is skipped entirely — the update
returns the state unchanged, so no component, timer or Spatial Index
mutation occurs. -/
theorem c8_zero_dt_skips_tick (cfg : Cfg) (nrm : Vec2 → Vec2) (fuel : ℕ) (s : State) :
    GameplaySystem.update cfg nrm fuel s 0 = s := by
  unfold GameplaySystem.update
  rw [if_pos rfl]

/-- C9: for every position — negative or beyond the world bounds
included — the cell computation truncates `coord / cell_size` and
clamps into `[0, cols−1] × [0, rows−1]`; hence `getCellIndex` lands in
`[0, cols·rows)`, a truncated coordinate below 0 (resp. at or above the
column/row count) is silently mapped to the border cell 0 (resp.
`cols−1`/`rows−1`), and every flat cell index a rectangular query scan
visits between two clamped corners is in bounds. -/
theorem c9_cell_index_in_bounds (cfg : Cfg) (hv : cfg.Valid) (p : Vec2) :
    (0 ≤ cellX cfg p.x ∧ cellX cfg p.x ≤ cfg.cols - 1 ∧
      0 ≤ cellY cfg p.y ∧ cellY cfg p.y ≤ cfg.rows - 1) ∧
    (0 ≤ getCellIndex cfg p ∧ getCellIndex cfg p < cfg.cols * cfg.rows) ∧
    (truncQ (p.x / (cfg.cellSize : ℚ)) < 0 → cellX cfg p.x = 0) ∧
    (cfg.cols ≤ truncQ (p.x / (cfg.cellSize : ℚ)) → cellX cfg p.x = cfg.cols - 1) ∧
    (truncQ (p.y / (cfg.cellSize : ℚ)) < 0 → cellY cfg p.y = 0) ∧
    (cfg.rows ≤ truncQ (p.y / (cfg.cellSize : ℚ)) → cellY cfg p.y = cfg.rows - 1) ∧
    (∀ q : Vec2, ∀ ci ∈ visitedIdx cfg (cellX cfg p.x) (cellY cfg p.y)
        (cellX cfg q.x) (cellY cfg q.y), 0 ≤ ci ∧ ci < cfg.cols * cfg.rows) := by
  obtain ⟨hc, hr, hcs⟩ := hv
  obtain ⟨hx0, hx1⟩ := cellX_bounds cfg hc p.x
  obtain ⟨hy0, hy1⟩ := cellY_bounds cfg hr p.y
  refine ⟨⟨hx0, hx1, hy0, hy1⟩, getCellIndex_bounds cfg ⟨hc, hr, hcs⟩ p,
    ?_, ?_, ?_, ?_, ?_⟩
  · intro ht
    unfold cellX clampZ
    exact max_eq_left (le_trans (min_le_left _ _) (le_of_lt ht))
  · intro ht
    unfold cellX clampZ
    have h1 : min (truncQ (p.x / (cfg.cellSize : ℚ))) (cfg.cols - 1) = cfg.cols - 1 :=
      min_eq_right (by omega)
    rw [h1]
    exact max_eq_right (by omega)
  · intro ht
    unfold cellY clampZ
    exact max_eq_left (le_trans (min_le_left _ _) (le_of_lt ht))
  · intro ht
    unfold cellY clampZ
    have h1 : min (truncQ (p.y / (cfg.cellSize : ℚ))) (cfg.rows - 1) = cfg.rows - 1 :=
      min_eq_right (by omega)
    rw [h1]
    exact max_eq_right (by omega)
  · intro q ci hci
    rw [mem_visitedIdx] at hci
    obtain ⟨x, y, hxa, hxb, hya, hyb, rfl⟩ := hci
    obtain ⟨hqx0, hqx1⟩ := cellX_bounds cfg hc q.x
    obtain ⟨hqy0, hqy1⟩ := cellY_bounds cfg hr q.y
    constructor
    · have : 0 ≤ y * cfg.cols := mul_nonneg (by omega) (by omega)
      omega
    · have h1 : y * cfg.cols ≤ (cfg.rows - 1) * cfg.cols :=
        mul_le_mul_of_nonneg_right (by omega) (by omega)
      nlinarith

/-- C9 witness: on the 2 × 1 example configuration, the position
(−13, 47) — negative x, y beyond the 10-unit-high world — is clamped to
the border cell (0, 0), and its flat index is in `[0, 2)`. -/
theorem c9_witness :
    cellX cfg0 (-13) = 0 ∧ cellY cfg0 47 = 0 ∧
    0 ≤ getCellIndex cfg0 ⟨-13, 47⟩ ∧ getCellIndex cfg0 ⟨-13, 47⟩ < cfg0.cols * cfg0.rows := by
  have h := c9_cell_index_in_bounds cfg0 cfg0_valid ⟨-13, 47⟩
  exact ⟨h.2.2.1 (by norm_num [truncQ, cfg0]),
    h.2.2.2.2.2.1 (by norm_num [truncQ, cfg0]), h.2.1.1, h.2.1.2⟩

theorem nodup_lcat {α β : Type} {l : List α} {fn : α → List β} (hl : l.Nodup)
    (hn : ∀ a ∈ l, (fn a).Nodup)
    (hdisj : ∀ a ∈ l, ∀ b ∈ l, a ≠ b → ∀ x ∈ fn a, x ∉ fn b) :
    (lcat l fn).Nodup := by
  induction l with
  | nil => exact List.nodup_nil
  | cons a t ih =>
    rw [List.nodup_cons] at hl
    show (fn a ++ lcat t fn).Nodup
    refine List.Nodup.append (hn a (List.mem_cons_self a t))
      (ih hl.2 (fun b hb => hn b (List.mem_cons_of_mem a hb))
        (fun b hb c hc hbc => hdisj b (List.mem_cons_of_mem a hb) c
          (List.mem_cons_of_mem a hc) hbc)) ?_
    intro x hxa hxc
    rcases mem_lcat.1 hxc with ⟨b, hb, hxb⟩
    have hab : a ≠ b := fun h => hl.1 (h ▸ hb)
    exact hdisj a (List.mem_cons_self a t) b (List.mem_cons_of_mem a hb) hab x hxa hxb

theorem nodup_cellRange (a b : ℤ) : (cellRange a b).Nodup := by
  unfold cellRange
  refine List.Nodup.map ?_ (List.nodup_range _)
  intro i j h
  have h' : a + (i : ℤ) = a + (j : ℤ) := h
  omega

theorem nodup_visitedIdx {cfg : Cfg} {sx sy ex ey : ℤ} (hsx : 0 ≤ sx)
    (hex : ex ≤ cfg.cols - 1) : (visitedIdx cfg sx sy ex ey).Nodup := by
  unfold visitedIdx
  refine nodup_lcat (nodup_cellRange sy ey) (fun y hy => ?_) ?_
  · refine List.Nodup.map ?_ (nodup_cellRange sx ex)
    intro i j h
    exact add_right_cancel h
  · intro y hy y' hy' hne x hx hx'
    simp only [List.mem_map] at hx hx'
    obtain ⟨i, hi, rfl⟩ := hx
    obtain ⟨j, hj, hEq⟩ := hx'
    rw [mem_cellRange] at hi hj
    rcases hne.lt_or_lt with hlt | hlt
    · have h3 : (y + 1) * cfg.cols ≤ y' * cfg.cols :=
        mul_le_mul_of_nonneg_right (by omega) (by omega)
      linarith
    · have h3 : (y' + 1) * cfg.cols ≤ y * cfg.cols :=
        mul_le_mul_of_nonneg_right (by omega) (by omega)
      linarith

theorem nodup_radiusCandidates {cfg : Cfg} {s : State} {c : ℤ → ℤ → List ℕ} {fuel : ℕ}
    (hcfg : cfg.Valid) (w : WF cfg s c) (hfuel : ∀ g ci, (c g ci).length ≤ fuel)
    (pos : Vec2) (r : ℚ) (f : ℤ) (sf : Bool) :
    (radiusCandidates cfg s fuel pos r f sf).Nodup := by
  have hwalk : ∀ g ci, chainWalk s fuel (s.cells g ci) = c g ci := fun g ci => by
    rw [(w.buckets g ci).1]
    exact chainWalk_of_chainOK (w.buckets g ci).2 (hfuel g ci)
  unfold radiusCandidates
  refine nodup_lcat ?_ (fun g hg => ?_) ?_
  · unfold relevantFactions
    split_ifs <;>
      first
        | exact List.nodup_nil
        | exact List.nodup_singleton _
        | exact List.Nodup.filter _ (by decide)
  · unfold factionQueryCells
    refine nodup_lcat (nodup_visitedIdx (cellX_bounds cfg hcfg.1 _).1
      (cellX_bounds cfg hcfg.1 _).2) (fun ci hci => ?_) ?_
    · rw [hwalk g ci]
      exact w.nodup g ci
    · intro ci hci ci' hci' hne x hx hx'
      rw [hwalk g ci] at hx
      rw [hwalk g ci'] at hx'
      exact hne (w.bucket_unique hx hx').2
  · intro g hg g' hg' hne x hx hx'
    unfold factionQueryCells at hx hx'
    rcases mem_lcat.1 hx with ⟨ci, _, hxc⟩
    rcases mem_lcat.1 hx' with ⟨ci', _, hxc'⟩
    rw [hwalk g ci] at hxc
    rw [hwalk g' ci'] at hxc'
    exact hne (w.bucket_unique hxc hxc').1

theorem nodup_queryRadiusList {cfg : Cfg} {s : State} {c : ℤ → ℤ → List ℕ} {fuel : ℕ}
    (hcfg : cfg.Valid) (w : WF cfg s c) (hfuel : ∀ g ci, (c g ci).length ≤ fuel)
    (pos : Vec2) (r : ℚ) (f : ℤ) (sf : Bool) :
    (queryRadiusList cfg s fuel pos r f sf).Nodup :=
  List.Nodup.filter _ (nodup_radiusCandidates hcfg w hfuel pos r f sf)

theorem healOne_alive (amt : ℚ) (st : State) (a : ℕ) :
    (healOne amt st a).alive = st.alive := by
  unfold healOne
  by_cases h1 : st.alive a = true
  · rw [if_pos h1]
    cases hh : st.health a with
    | none => rfl
    | some h =>
      show (if h.isFull then st
        else { st with health := updFn st.health a (some (h.heal amt)) }).alive = st.alive
      by_cases h2 : h.isFull
      · rw [if_pos h2]
      · rw [if_neg h2]
  · rw [if_neg h1]

theorem healOne_health_other (amt : ℚ) (st : State) {a e : ℕ} (hne : a ≠ e) :
    (healOne amt st a).health e = st.health e := by
  unfold healOne
  by_cases h1 : st.alive a = true
  · rw [if_pos h1]
    cases hh : st.health a with
    | none => rfl
    | some h =>
      show (if h.isFull then st
        else { st with health := updFn st.health a (some (h.heal amt)) }).health e =
          st.health e
      by_cases h2 : h.isFull
      · rw [if_pos h2]
      · rw [if_neg h2]
        show updFn st.health a (some (h.heal amt)) e = st.health e
        unfold updFn
        rw [if_neg (show ¬e = a from fun hea => hne hea.symm)]
  · rw [if_neg h1]

theorem foldl_healOne_alive (amt : ℚ) (l : List ℕ) (st : State) :
    (l.foldl (healOne amt) st).alive = st.alive := by
  induction l generalizing st with
  | nil => rfl
  | cons a t ih => rw [List.foldl_cons, ih, healOne_alive]

theorem healOne_applies (amt : ℚ) {st : State} {e : ℕ} {hh : Health}
    (ha : st.alive e = true) (hhe : st.health e = some hh) (hnf : ¬hh.isFull) :
    healOne amt st e = { st with health := updFn st.health e (some (hh.heal amt)) } := by
  unfold healOne
  rw [if_pos ha]
  simp only [hhe]
  rw [if_neg hnf]

theorem foldl_healOne_health_other (amt : ℚ) {e : ℕ} (l : List ℕ) (he : e ∉ l) (st : State) :
    (l.foldl (healOne amt) st).health e = st.health e := by
  induction l generalizing st with
  | nil => rfl
  | cons a t ih =>
    rw [List.foldl_cons, ih (fun h => he (List.mem_cons_of_mem a h)),
      healOne_health_other amt st
        (show a ≠ e from fun hae => he (by rw [← hae]; exact List.mem_cons_self a t))]

/-- C10: a healer that is itself indexed in the Spatial Index at its own
faction, alive, below max health and with an elapsed cooldown is
reported by its own same-faction radius query (it sits at distance zero
and the heal loop has no self-exclusion), and the healer step heals it
by `heal_amount` clamped to max health. -/
theorem c10_healer_heals_itself {cfg : Cfg} {s : State} {c : ℤ → ℤ → List ℕ} {fuel : ℕ}
    {e : ℕ} {hl : Healer} {pos : Vec2} {fid ci : ℤ} {hh : Health} {dt : ℚ}
    (hcfg : cfg.Valid) (w : WF cfg s c) (hpc : PosConsistent cfg s)
    (hfuel : ∀ g ci, (c g ci).length ≤ fuel)
    (hhl : s.healerC e = some hl)
    (hpos : s.position e = some pos)
    (hfac : s.faction e = some fid)
    (hidx : indexedAt s e fid ci)
    (hcd : hl.timer + dt ≥ hl.cooldown)
    (hr : 0 ≤ hl.range)
    (halive : s.alive e = true)
    (hhe : s.health e = some hh)
    (hnotfull : hh.current < hh.maxHp) :
    e ∈ queryRadiusList cfg s fuel pos hl.range fid true ∧
    (healerStep cfg fuel s dt e).health e =
      some { hh with current := min hh.maxHp (hh.current + hl.heal_amount) } := by
  have hdist : distSq pos pos ≤ hl.range ^ 2 := by
    have h0 : distSq pos pos = 0 := by simp [distSq]
    rw [h0]
    exact sq_nonneg hl.range
  have hmode : modeOK fid true fid := by
    unfold modeOK
    split_ifs <;> trivial
  constructor
  · exact (mem_queryRadiusList_iff hcfg w hpc hfuel pos hr fid true e).2
      ⟨fid, ci, pos, hidx, hpos, hdist, hmode⟩
  · simp only [healerStep, hhl, hpos, hfac]
    rw [if_pos hcd]
    show ((queryRadiusList cfg { s with healerC := updFn s.healerC e (some { hl with timer := hl.timer + dt }) } fuel pos hl.range fid true).foldl (healOne hl.heal_amount) { s with healerC := updFn s.healerC e (some { hl with timer := hl.timer + dt }) }).health e = some { hh with current := min hh.maxHp (hh.current + hl.heal_amount) }
    generalize hs1 : ({ s with healerC := updFn s.healerC e (some { hl with timer := hl.timer + dt }) } : State) = s1
    have w1 : WF cfg s1 c := by
      rw [← hs1]
      refine WF.congr ?_ ?_ w
      · rfl
      · rfl
    have hpc1 : PosConsistent cfg s1 := by
      rw [← hs1]
      exact hpc
    have hpos1 : s1.position e = some pos := by
      rw [← hs1]
      exact hpos
    have hidx1 : indexedAt s1 e fid ci := by
      rw [← hs1]
      exact hidx
    have hal1 : s1.alive e = true := by
      rw [← hs1]
      exact halive
    have hhe1 : s1.health e = some hh := by
      rw [← hs1]
      exact hhe
    have hmem1 : e ∈ queryRadiusList cfg s1 fuel pos hl.range fid true :=
      (mem_queryRadiusList_iff hcfg w1 hpc1 hfuel pos hr fid true e).2
        ⟨fid, ci, pos, hidx1, hpos1, hdist, hmode⟩
    have hnodup1 : (queryRadiusList cfg s1 fuel pos hl.range fid true).Nodup :=
      nodup_queryRadiusList hcfg w1 hfuel pos hl.range fid true
    obtain ⟨L1, L2, hL⟩ := List.append_of_mem hmem1
    rw [hL] at hnodup1 ⊢
    rw [List.nodup_append, List.nodup_cons] at hnodup1
    obtain ⟨hnd1, ⟨he2, hnd2⟩, hdisj⟩ := hnodup1
    have he1 : e ∉ L1 := fun h => hdisj h (List.mem_cons_self e L2)
    rw [List.foldl_append, List.foldl_cons]
    have hh1 : (L1.foldl (healOne hl.heal_amount) s1).health e = some hh := by
      rw [foldl_healOne_health_other hl.heal_amount L1 he1]
      exact hhe1
    have ha1 : (L1.foldl (healOne hl.heal_amount) s1).alive e = true := by
      rw [foldl_healOne_alive]
      exact hal1
    rw [foldl_healOne_health_other hl.heal_amount L2 he2,
      healOne_applies hl.heal_amount ha1 hh1 (fun hf => hf hnotfull)]
    simp [updFn, Health.heal]

theorem WF_sHeal : WF cfg0 sHeal cHeal := by
  refine ⟨?_, ?_, ?_, ?_⟩
  · intro g ci
    by_cases h1 : g = 0 ∧ ci = 0
    · obtain ⟨rfl, rfl⟩ := h1
      exact ⟨rfl, ⟨⟨none, none, 0, 0⟩, rfl, rfl, rfl, rfl, rfl⟩, trivial⟩
    · have hc : cHeal g ci = [] := by
        simp only [cHeal, if_neg h1]
      have hcel : sHeal.cells g ci = none := by
        simp only [sHeal, if_neg h1]
      rw [hc]
      exact ⟨by rw [hcel]; rfl, trivial⟩
  · intro e g ci hi
    rcases hi with ⟨n, hn, hfc, hcl, hne⟩
    by_cases he0 : e = 0
    · subst he0
      have hn' : sHeal.node 0 = some ⟨none, none, 0, 0⟩ := rfl
      rw [hn'] at hn
      injection hn with hn
      rw [← hn] at hfc hcl
      simp only at hfc hcl
      rw [← hfc, ← hcl]
      show (0 : ℕ) ∈ cHeal 0 0
      simp [cHeal]
    · have hn' : sHeal.node e = none := by
        simp only [sHeal, if_neg he0]
      rw [hn'] at hn
      cases hn
  · intro g ci hne
    by_cases h1 : g = 0 ∧ ci = 0
    · obtain ⟨rfl, rfl⟩ := h1
      norm_num [cfg0, MAX_FACTIONS]
    · exfalso
      exact hne (by simp only [cHeal, if_neg h1])
  · intro g ci
    by_cases h1 : g = 0 ∧ ci = 0
    · obtain ⟨rfl, rfl⟩ := h1
      simp [cHeal]
    · simp only [cHeal, if_neg h1]
      exact List.nodup_nil

theorem PC_sHeal : PosConsistent cfg0 sHeal := by
  intro e n p hn hne hp
  by_cases he0 : e = 0
  · subst he0
    have hn' : sHeal.node 0 = some ⟨none, none, 0, 0⟩ := rfl
    rw [hn'] at hn
    injection hn with hn
    have hp' : sHeal.position 0 = some ⟨5, 5⟩ := rfl
    rw [hp'] at hp
    injection hp with hp
    rw [← hn, ← hp, gci0_55]
  · have hn' : sHeal.node e = none := by
      simp only [sHeal, if_neg he0]
    rw [hn'] at hn
    cases hn

theorem cHeal_fuel : ∀ g ci, (cHeal g ci).length ≤ 1 := by
  intro g ci
  by_cases h1 : g = 0 ∧ ci = 0
  · simp [cHeal, h1]
  · simp [cHeal, h1]

/-- C10 witness: the lone healer's own same-faction query reports it,
and one healer step with dt = 1 heals it from 10 to 15 of 30. -/
theorem c10_witness :
    0 ∈ queryRadiusList cfg0 sHeal 1 ⟨5, 5⟩ 10 0 true ∧
    (healerStep cfg0 1 sHeal 1 0).health 0 = some ⟨15, 30, 0⟩ := by
  obtain ⟨h1, h2⟩ := @c10_healer_heals_itself cfg0 sHeal cHeal 1 0 ⟨5, 10, 1, 1⟩ ⟨5, 5⟩ 0 0
    ⟨10, 30, 0⟩ 1 cfg0_valid WF_sHeal PC_sHeal cHeal_fuel rfl rfl rfl
    ⟨⟨none, none, 0, 0⟩, rfl, rfl, rfl, by norm_num⟩ (by norm_num) (by norm_num) rfl rfl
    (by norm_num)
  refine ⟨h1, ?_⟩
  rw [h2]
  norm_num [min_def]

end RTS
